import Mathlib

/-!
Shallow embedding of the cuculiform cuckoo filter (src/src/cuculiform.h,
the flat-buffer `CuckooFilter<T>` variant) and proofs about it.

Modelling conventions:
* bytes are `Nat` (values < 256 in well-formed states), the backing buffer
  `m_data` is a `List Nat`;
* machine integers are `Nat` with `% 2^32` / `% 2^64` where the C++ code
  truncates (`static_cast<uint32_t>`, `size_t` wrap-around);
* the injected hash functions (`m_strong_hash_fn`, `std::hash<T>`) are
  opaque parameters of type `Nat → Nat`; their results are truncated to
  64 bits where the code assigns them to `uint64_t` / `size_t`;
* the random draws (`index_dis(gen)`, `bucket_dis(gen)`) are explicit
  inputs: a `Bool` for the initial bucket choice and a `List Nat` for the
  victim-slot picks (taken `% m_bucket_size`, matching the distribution's
  support `[0, m_bucket_size)`);
* the mutation of `m_data` in place becomes explicit state passing.
-/

namespace cuculiform

/-- One `v |= v >> s` step of the bit-smearing hack in
`ceil_to_power_of_two`. -/
def smear_step (v s : Nat) : Nat := v ||| (v >>> s)

/-- The six-step smear `v |= v>>1; v |= v>>2; ...; v |= v>>32`. -/
def smear64 (v : Nat) : Nat :=
  smear_step (smear_step (smear_step (smear_step (smear_step
    (smear_step v 1) 2) 4) 8) 16) 32

/-- `ceil_to_power_of_two` from cuculiform.h: decrement (wrapping modulo
`2^64` as `size_t` does), smear, increment (wrapping), then
`v += (v == 0)`. -/
def ceil_to_power_of_two (v : Nat) : Nat :=
  (smear64 ((v + (2 ^ 64 - 1)) % 2 ^ 64) + 1) % 2 ^ 64
  + (if (smear64 ((v + (2 ^ 64 - 1)) % 2 ^ 64) + 1) % 2 ^ 64 = 0 then 1
     else 0)

/-- Helper for `from_bytes`: or-accumulate `vec[i] << (i*8)` starting at
byte position `i`, mirroring the loop in cuculiform.h. -/
def from_bytes_aux : List Nat → Nat → Nat
  | [], _ => 0
  | b :: rest, i => (b <<< (8 * i)) ||| from_bytes_aux rest (i + 1)

/-- `from_bytes` from cuculiform.h: little-endian byte vector to `uint32_t`.
The result is truncated to 32 bits as the C++ accumulator is `uint32_t`. -/
def from_bytes (vec : List Nat) : Nat :=
  from_bytes_aux vec 0 % 2 ^ 32

/-- `into_bytes` from cuculiform.h: `vec[i] = uint8_t(linear >> (i*8))`. -/
def into_bytes (linear : Nat) (num_bytes : Nat) : List Nat :=
  (List.range num_bytes).map (fun i => linear / 2 ^ (8 * i) % 256)

/-- The all-zero fingerprint used as the empty-slot sentinel
(`empty_fingerprint` in `Bucket::insert`). -/
def empty_fingerprint (n : Nat) : List Nat := List.replicate n 0

/-- The `fps` bytes starting at offset `off` of the buffer, as read through
a `Chunk` of the `ChunkedIterator` (out-of-range bytes read as 0; in
well-formed states every access is in range). -/
def chunk_at (data : List Nat) (off n : Nat) : List Nat :=
  (List.range n).map (fun i => data.getD (off + i) 0)

/-- `std::copy(fp.begin(), fp.end(), position->begin)`: write the bytes of
`fp` into the buffer starting at offset `off`. -/
def write_bytes : List Nat → Nat → List Nat → List Nat
  | data, _, [] => data
  | data, off, b :: rest => write_bytes (data.set off b) (off + 1) rest

/-- `std::find` over chunk positions `idxs` (in order): the first `j` whose
chunk at byte offset `base + j * fps` equals `target`. -/
def find_chunk (data : List Nat) (base fps : Nat) (target : List Nat) :
    List Nat → Option Nat
  | [] => none
  | j :: rest =>
    if chunk_at data (base + j * fps) fps = target then some j
    else find_chunk data base fps target rest

/-- `Bucket::insert`: scan the `range_len / fps` slots (`begin()`/`end()`
divide the byte distance by the fingerprint size) for the first all-zero
slot; on success copy `fp` there. Returns (success, new buffer). -/
def bucket_insert (data : List Nat) (base range_len fps : Nat)
    (fp : List Nat) : Bool × List Nat :=
  match find_chunk data base fps (empty_fingerprint fps)
      (List.range (range_len / fps)) with
  | some j => (true, write_bytes data (base + j * fps) fp)
  | none => (false, data)

/-- `Bucket::contains`: `std::find(cbegin(), cend(), chunk)`.  NOTE:
`Bucket::cend()` uses `std::distance(m_begin, m_end)` WITHOUT dividing by
the fingerprint size, so the scan runs over `range_len` chunk positions
(not `range_len / fps`); this over-scan is reproduced faithfully. -/
def bucket_contains (data : List Nat) (base range_len fps : Nat)
    (fp : List Nat) : Bool :=
  (find_chunk data base fps fp (List.range range_len)).isSome

/-- `Bucket::erase`: find the first slot equal to `fp` (over
`begin()`/`end()`, i.e. `range_len / fps` slots) and zero it. -/
def bucket_erase (data : List Nat) (base range_len fps : Nat)
    (fp : List Nat) : Bool × List Nat :=
  match find_chunk data base fps fp (List.range (range_len / fps)) with
  | some j => (true, write_bytes data (base + j * fps) (empty_fingerprint fps))
  | none => (false, data)

/-- `Bucket::swap`: exchange the in-hand fingerprint with slot `k`.
Returns (bytes previously in the slot, new buffer). -/
def bucket_swap (data : List Nat) (base fps k : Nat) (fp : List Nat) :
    List Nat × List Nat :=
  (chunk_at data (base + k * fps) fps, write_bytes data (base + k * fps) fp)

/-- `m_bucket_size`, set to the constant 4 by the constructor. -/
def m_bucket_size : Nat := 4

/-- The state and configuration of a `CuckooFilter<T>` instance. -/
structure CuckooFilter where
  m_bucket_count : Nat
  m_fingerprint_size : Nat
  m_max_relocations : Nat
  m_strong_hash_fn : Nat → Nat
  weak_hash_fn : Nat → Nat
  m_capacity : Nat
  m_data : List Nat
  m_size : Nat

/-- The declared default of the `max_relocations` constructor parameter
(`uint max_relocations = 10`). -/
def default_max_relocations : Nat := 10

/-- The constructor.  The two `assert`s on `m_fingerprint_size` are
modelled as fail-fast (`none`); everything else follows the initializer
list: `m_bucket_count = ceil_to_power_of_two(capacity / bucket_size)` and
`m_data = vector<uint8_t>(capacity * fingerprint_size, 0)`. -/
def mk_cuckoo_filter (capacity fingerprint_size max_relocations : Nat)
    (strong_hash_fn weak_hash_fn : Nat → Nat) : Option CuckooFilter :=
  if 0 < fingerprint_size ∧ fingerprint_size ≤ 4 then
    some (CuckooFilter.mk (ceil_to_power_of_two (capacity / m_bucket_size))
      fingerprint_size max_relocations strong_hash_fn weak_hash_fn
      capacity (List.replicate (capacity * fingerprint_size) 0) 0)
  else none

/-- Byte offset of bucket `index` in the buffer, as in `get_bucket`:
`index * m_bucket_size * m_fingerprint_size`. -/
def get_bucket_begin (f : CuckooFilter) (index : Nat) : Nat :=
  index * m_bucket_size * f.m_fingerprint_size

/-- Byte length of a bucket view:
`(index+1) * bs * fps - index * bs * fps = bs * fps`. -/
def get_bucket_range (f : CuckooFilter) : Nat :=
  m_bucket_size * f.m_fingerprint_size

/-- `CuckooFilter::get_alt_index`:
`index ^ (uint32_t(strong_hash(from_bytes(fp))) % m_bucket_count)`. -/
def get_alt_index (f : CuckooFilter) (index : Nat)
    (fingerprint : List Nat) : Nat :=
  index ^^^ (f.m_strong_hash_fn (from_bytes fingerprint) % 2 ^ 32
    % f.m_bucket_count)

/-- `CuckooFilter::get_indexes_and_fingerprint_for`, returning
(index, alt_index, fingerprint bytes). -/
def get_indexes_and_fingerprint_for (f : CuckooFilter) (item : Nat) :
    Nat × Nat × List Nat :=
  let hash := f.m_strong_hash_fn (f.weak_hash_fn item % 2 ^ 64) % 2 ^ 64
  let fingerprint_part := hash % 2 ^ 32
  let index_part := hash / 2 ^ 32
  let fingerprint0 := fingerprint_part / 2 ^ (32 - f.m_fingerprint_size * 8)
  let fingerprint := if fingerprint0 = 0 then 1 else fingerprint0
  let fingerprint_vec := into_bytes fingerprint f.m_fingerprint_size
  let index := index_part % f.m_bucket_count
  (index, get_alt_index f index fingerprint_vec, fingerprint_vec)

/-- Outcome of the insertion attempt, instrumented so theorems can talk
about the final in-hand fingerprint, the bucket it would have gone to,
and the number of relocation-loop iterations executed. -/
structure InsertOutcome where
  inserted : Bool
  data : List Nat
  in_hand : List Nat
  at_index : Nat
  steps : Nat

/-- The relocation loop of `CuckooFilter::insert` (`for i <
m_max_relocations`), with the loop counter as explicit fuel and the
victim-slot draws supplied by `picks`. -/
def relocate (f : CuckooFilter) :
    Nat → List Nat → List Nat → Nat → List Nat → InsertOutcome
  | 0, data, v, b, _ => InsertOutcome.mk false data v b 0
  | fuel + 1, data, v, b, picks =>
    let attempt := bucket_insert data (get_bucket_begin f b)
      (get_bucket_range f) f.m_fingerprint_size v
    if attempt.1 then InsertOutcome.mk true attempt.2 v b 1
    else
      let k := picks.headD 0 % m_bucket_size
      let sw := bucket_swap data (get_bucket_begin f b)
        f.m_fingerprint_size k v
      let r := relocate f fuel sw.2 sw.1 (get_alt_index f b sw.1) picks.tail
      InsertOutcome.mk r.inserted r.data r.in_hand r.at_index (r.steps + 1)

/-- `CuckooFilter::insert` up to the `m_size` update: the direct attempt
into the randomly chosen candidate bucket, then the relocation cascade. -/
def insert_run (f : CuckooFilter) (item : Nat) (coin : Bool)
    (picks : List Nat) : InsertOutcome :=
  let t := get_indexes_and_fingerprint_for f item
  let index_to_insert := if coin then t.1 else t.2.1
  let direct := bucket_insert f.m_data (get_bucket_begin f index_to_insert)
    (get_bucket_range f) f.m_fingerprint_size t.2.2
  if direct.1 then InsertOutcome.mk true direct.2 t.2.2 index_to_insert 0
  else relocate f f.m_max_relocations f.m_data t.2.2
    (get_alt_index f index_to_insert t.2.2) picks

/-- `CuckooFilter::insert`: on success `m_size++` (size_t wrap-around kept
explicit); on failure the buffer keeps all mutations the cascade made. -/
def insert (f : CuckooFilter) (item : Nat) (coin : Bool)
    (picks : List Nat) : Bool × CuckooFilter :=
  let r := insert_run f item coin picks
  if r.inserted then
    (true, { f with m_data := r.data, m_size := (f.m_size + 1) % 2 ^ 64 })
  else (false, { f with m_data := r.data })

/-- `CuckooFilter::contains`: membership in either candidate bucket. -/
def contains (f : CuckooFilter) (item : Nat) : Bool :=
  let t := get_indexes_and_fingerprint_for f item
  bucket_contains f.m_data (get_bucket_begin f t.1) (get_bucket_range f)
    f.m_fingerprint_size t.2.2
  || bucket_contains f.m_data (get_bucket_begin f t.2.1) (get_bucket_range f)
    f.m_fingerprint_size t.2.2

/-- `CuckooFilter::erase`: try the first bucket, then (only if that failed,
`||` short-circuits) the alternate bucket; `m_size--` on success. -/
def erase (f : CuckooFilter) (item : Nat) : Bool × CuckooFilter :=
  let t := get_indexes_and_fingerprint_for f item
  let first := bucket_erase f.m_data (get_bucket_begin f t.1)
    (get_bucket_range f) f.m_fingerprint_size t.2.2
  if first.1 then
    (true, { f with m_data := first.2,
                    m_size := (f.m_size + (2 ^ 64 - 1)) % 2 ^ 64 })
  else
    let second := bucket_erase f.m_data (get_bucket_begin f t.2.1)
      (get_bucket_range f) f.m_fingerprint_size t.2.2
    if second.1 then
      (true, { f with m_data := second.2,
                      m_size := (f.m_size + (2 ^ 64 - 1)) % 2 ^ 64 })
    else (false, f)

/-- `CuckooFilter::clear`: zero the whole buffer, reset the size. -/
def clear (f : CuckooFilter) : CuckooFilter :=
  { f with m_data := List.replicate f.m_data.length 0, m_size := 0 }

/-- A filter operation of a trace: an insert (with its random draws) or an
erase. -/
inductive Op where
  | ins (item : Nat) (coin : Bool) (picks : List Nat)
  | del (item : Nat)

/-- Apply one operation to the filter state. -/
def apply_op (f : CuckooFilter) : Op → CuckooFilter
  | Op.ins item coin picks => (insert f item coin picks).2
  | Op.del item => (erase f item).2

/-- Primary index derived for `item`. -/
def index_of (f : CuckooFilter) (item : Nat) : Nat :=
  (get_indexes_and_fingerprint_for f item).1

/-- Alternate index derived for `item`. -/
def alt_of (f : CuckooFilter) (item : Nat) : Nat :=
  (get_indexes_and_fingerprint_for f item).2.1

/-- Fingerprint bytes derived for `item`. -/
def fp_of (f : CuckooFilter) (item : Nat) : List Nat :=
  (get_indexes_and_fingerprint_for f item).2.2

/-- Whether, after applying `op` to `f`, the tracked item `t` is still
covered by the no-false-negative guarantee: a successful `insert t` starts
tracking; tracking is lost when a failed relocation cascade ends holding
`t`'s fingerprint at one of `t`'s candidate buckets, or when a successful
erase removes `t`'s fingerprint value from its candidate-bucket pair. -/
def track_step (f : CuckooFilter) (t : Nat) (tr : Bool) : Op → Bool
  | Op.ins x coin picks =>
    let r := insert_run f x coin picks
    if x = t && r.inserted then true
    else tr && !(!r.inserted && decide (r.in_hand = fp_of f t)
      && (decide (r.at_index = index_of f t)
          || decide (r.at_index = alt_of f t)))
  | Op.del x =>
    let ok := (erase f x).1
    tr && !(ok && decide (fp_of f x = fp_of f t)
      && (decide (index_of f x = index_of f t)
          || decide (index_of f x = alt_of f t)))

/-- Run a trace of operations while tracking the guarantee status of
item `t`. -/
def run_track (t : Nat) : CuckooFilter → Bool → List Op → CuckooFilter × Bool
  | f, tr, [] => (f, tr)
  | f, tr, op :: ops => run_track t (apply_op f op) (track_step f t tr op) ops

/-- Well-formedness: the buffer covers all buckets (this is exactly what
the intended allocation `bucket_count * bucket_size * fingerprint_size`
gives), the bucket count is the power of two the constructor computes, and
the fingerprint size is in the asserted range. -/
def wf (f : CuckooFilter) : Prop :=
  f.m_data.length = f.m_bucket_count * (m_bucket_size * f.m_fingerprint_size)
  ∧ (∃ k, f.m_bucket_count = 2 ^ k)
  ∧ 0 < f.m_fingerprint_size ∧ f.m_fingerprint_size ≤ 4

/-- The fingerprint of `t` is resident in one of `t`'s two candidate
buckets of the byte buffer `data` (using `f` only for the immutable
configuration: hashes, bucket count, fingerprint size). -/
def resident_in (f : CuckooFilter) (data : List Nat) (t : Nat) : Prop :=
  ∃ b, (b = index_of f t ∨ b = alt_of f t)
    ∧ ∃ j, j < m_bucket_size
      ∧ chunk_at data (get_bucket_begin f b + j * f.m_fingerprint_size)
          f.m_fingerprint_size = fp_of f t

/-- The fingerprint of `t` is resident in one of `t`'s two candidate
buckets (the tight four real slots, not the over-scanned view). -/
def resident (f : CuckooFilter) (t : Nat) : Prop :=
  resident_in f f.m_data t

/-! ### Bit-level helper lemmas -/

/-- Smearing widens the "some bit set within the window" property: if
`a`'s bit `i` says "some bit of `x` in `[i, i+n)` is set", then
`a ||| (a >>> n)` says it for the window `[i, i+2n)`. -/
theorem smear_step_window (x a n : Nat)
    (h : ∀ i, a.testBit i = true ↔ ∃ d, d < n ∧ x.testBit (i + d) = true) :
    ∀ i, (smear_step a n).testBit i = true
      ↔ ∃ d, d < 2 * n ∧ x.testBit (i + d) = true := by
  intro i
  rw [smear_step, Nat.testBit_or, Nat.testBit_shiftRight, Bool.or_eq_true,
    h i, h (n + i)]
  constructor
  · rintro (⟨d, hd, hbit⟩ | ⟨d, hd, hbit⟩)
    · exact ⟨d, by omega, hbit⟩
    · exact ⟨n + d, by omega, by rwa [show i + (n + d) = n + i + d by omega]⟩
  · rintro ⟨d, hd, hbit⟩
    by_cases hdn : d < n
    · exact Or.inl ⟨d, hdn, hbit⟩
    · exact Or.inr ⟨d - n, by omega,
        by rwa [show n + i + (d - n) = i + d by omega]⟩

/-- Bit `i` of the full smear of `x` is set iff some bit of `x` in
`[i, i + 64)` is set. -/
theorem smear64_window (x : Nat) :
    ∀ i, (smear64 x).testBit i = true
      ↔ ∃ d, d < 64 ∧ x.testBit (i + d) = true := by
  have h1 : ∀ i, x.testBit i = true
      ↔ ∃ d, d < 1 ∧ x.testBit (i + d) = true := by
    intro i
    constructor
    · intro h
      exact ⟨0, Nat.zero_lt_one, by simpa using h⟩
    · rintro ⟨d, hd, h⟩
      have hd0 : d = 0 := by omega
      subst hd0
      simpa using h
  have h2 := smear_step_window x x 1 h1
  have h4 := smear_step_window x (smear_step x 1) 2 h2
  have h8 := smear_step_window x _ 4 h4
  have h16 := smear_step_window x _ 8 h8
  have h32 := smear_step_window x _ 16 h16
  have h64 := smear_step_window x _ 32 h32
  exact h64

/-- For `0 < x < 2^64`, the smear fills in exactly the bits below the
leading bit: `smear64 x = 2 ^ (log2 x + 1) - 1`. -/
theorem smear64_eq (x : Nat) (hx0 : x ≠ 0) (hxlt : x < 2 ^ 64) :
    smear64 x = 2 ^ (x.log2 + 1) - 1 := by
  have hL64 : x.log2 < 64 := (Nat.log2_lt hx0).2 hxlt
  have htop : x.testBit x.log2 = true := by
    have hlo : 2 ^ x.log2 ≤ x := Nat.log2_self_le hx0
    have hhi : x < 2 ^ (x.log2 + 1) := Nat.lt_log2_self
    have hdiv : x / 2 ^ x.log2 = 1 := by
      apply Nat.div_eq_of_lt_le
      · simpa using hlo
      · calc x < 2 ^ (x.log2 + 1) := hhi
          _ = (1 + 1) * 2 ^ x.log2 := by ring
    rw [Nat.testBit_to_div_mod, hdiv]
    decide
  apply Nat.eq_of_testBit_eq
  intro i
  rw [Nat.testBit_two_pow_sub_one]
  by_cases hi : i < x.log2 + 1
  · have hset : ∃ d, d < 64 ∧ x.testBit (i + d) = true := by
      refine ⟨x.log2 - i, by omega, ?_⟩
      rwa [show i + (x.log2 - i) = x.log2 by omega]
    rw [(smear64_window x i).2 hset]
    simp [hi]
  · have hnone : (smear64 x).testBit i = false := by
      by_contra hcon
      rw [Bool.not_eq_false] at hcon
      obtain ⟨d, _, hbit⟩ := (smear64_window x i).1 hcon
      have : x < 2 ^ (i + d) := by
        calc x < 2 ^ (x.log2 + 1) := Nat.lt_log2_self
          _ ≤ 2 ^ (i + d) := Nat.pow_le_pow_right (by omega) (by omega)
      rw [Nat.testBit_lt_two_pow this] at hbit
      exact Bool.false_ne_true hbit
    rw [hnone]
    simp [hi]

/-- `ceil_to_power_of_two` always returns a power of two. -/
theorem ceil_to_power_of_two_pow2 (v : Nat) :
    ∃ k, ceil_to_power_of_two v = 2 ^ k := by
  rw [ceil_to_power_of_two]
  have hxlt : (v + (2 ^ 64 - 1)) % 2 ^ 64 < 2 ^ 64 :=
    Nat.mod_lt _ (by norm_num)
  by_cases hx0 : (v + (2 ^ 64 - 1)) % 2 ^ 64 = 0
  · refine ⟨0, ?_⟩
    rw [hx0]
    have : smear64 0 = 0 := by decide
    rw [this]
    norm_num
  · rw [smear64_eq _ hx0 hxlt]
    have hpos : 0 < 2 ^ (((v + (2 ^ 64 - 1)) % 2 ^ 64).log2 + 1) :=
      Nat.pos_pow_of_pos _ (by norm_num)
    rw [Nat.sub_add_cancel hpos]
    have hLle : ((v + (2 ^ 64 - 1)) % 2 ^ 64).log2 + 1 ≤ 64 :=
      (Nat.log2_lt hx0).2 hxlt
    by_cases hL : ((v + (2 ^ 64 - 1)) % 2 ^ 64).log2 + 1 = 64
    · refine ⟨0, ?_⟩
      rw [hL]
      norm_num
    · have hlt : (2 : Nat) ^ (((v + (2 ^ 64 - 1)) % 2 ^ 64).log2 + 1)
          < 2 ^ 64 :=
        Nat.pow_lt_pow_right (by norm_num) (by omega)
      refine ⟨((v + (2 ^ 64 - 1)) % 2 ^ 64).log2 + 1, ?_⟩
      rw [Nat.mod_eq_of_lt hlt]
      have : 2 ^ (((v + (2 ^ 64 - 1)) % 2 ^ 64).log2 + 1) ≠ 0 := by omega
      simp [this]

/-- `ceil_to_power_of_two` never returns zero: no capacity "rounds to
zero buckets". -/
theorem ceil_to_power_of_two_pos (v : Nat) : 0 < ceil_to_power_of_two v := by
  obtain ⟨k, hk⟩ := ceil_to_power_of_two_pow2 v
  rw [hk]
  exact Nat.pos_pow_of_pos _ (by norm_num)

/-! ### Codec lemmas: `into_bytes` / `from_bytes` -/

theorem into_bytes_length (v n : Nat) : (into_bytes v n).length = n := by
  simp [into_bytes]

theorem into_bytes_succ (v m : Nat) :
    into_bytes v (m + 1) = v % 256 :: into_bytes (v / 256) m := by
  rw [into_bytes, List.range_succ_eq_map, List.map_cons]
  congr 1
  · simp
  · rw [into_bytes, List.map_map]
    apply List.map_congr_left
    intro i _
    simp only [Function.comp_apply]
    rw [Nat.div_div_eq_div_mul]
    congr 2
    rw [show 8 * Nat.succ i = 8 * i + 8 by omega, pow_add]
    ring

theorem from_bytes_aux_into_bytes (n : Nat) :
    ∀ v k, from_bytes_aux (into_bytes v n) k
      = (v % 2 ^ (8 * n)) <<< (8 * k) := by
  induction n with
  | zero =>
    intro v k
    simp [into_bytes, from_bytes_aux, Nat.mod_one]
  | succ m ih =>
    intro v k
    rw [into_bytes_succ, from_bytes_aux, ih]
    apply Nat.eq_of_testBit_eq
    intro j
    have h256 : (256 : Nat) = 2 ^ 8 := by norm_num
    rw [h256, ← Nat.shiftRight_eq_div_pow]
    simp only [Nat.testBit_or, Nat.testBit_shiftLeft, Nat.testBit_mod_two_pow,
      Nat.testBit_shiftRight]
    by_cases h1 : 8 * k ≤ j
    · by_cases h2 : j - 8 * k < 8
      · have h3 : ¬ (8 * (k + 1) ≤ j) := by omega
        have h4 : j - 8 * k < 8 * (m + 1) := by omega
        simp [h1, h2, h3, h4]
      · have h3 : 8 * (k + 1) ≤ j := by omega
        have h4 : 8 + (j - 8 * (k + 1)) = j - 8 * k := by omega
        have h5 : (j - 8 * (k + 1) < 8 * m) ↔ (j - 8 * k < 8 * (m + 1)) := by
          omega
        rw [h4]
        by_cases h6 : j - 8 * k < 8 * (m + 1)
        · simp [h1, h2, h3, h5.2 h6, h6]
        · have h7 : ¬ j - 8 * (k + 1) < 8 * m := fun hc => h6 (h5.1 hc)
          simp [h1, h2, h3, h6, h7]
    · have h3 : ¬ (8 * (k + 1) ≤ j) := by omega
      simp [h1, h3]

/-- Round-trip: packing a value below `2^(8n)` (n ≤ 4 bytes) into bytes and
reading it back with `from_bytes` returns the value. -/
theorem from_bytes_into_bytes (v n : Nat) (hn : n ≤ 4)
    (hv : v < 2 ^ (8 * n)) : from_bytes (into_bytes v n) = v := by
  rw [from_bytes, from_bytes_aux_into_bytes]
  have h1 : v % 2 ^ (8 * n) = v := Nat.mod_eq_of_lt hv
  rw [Nat.mul_zero, Nat.shiftLeft_zero, h1]
  apply Nat.mod_eq_of_lt
  calc v < 2 ^ (8 * n) := hv
    _ ≤ 2 ^ 32 := Nat.pow_le_pow_right (by norm_num) (by omega)

theorem from_bytes_aux_replicate_zero (n : Nat) :
    ∀ k, from_bytes_aux (List.replicate n 0) k = 0 := by
  induction n with
  | zero => intro k; simp [from_bytes_aux]
  | succ m ih =>
    intro k
    rw [List.replicate_succ, from_bytes_aux, ih]
    simp

/-- The all-zero sentinel reads back as the integer 0. -/
theorem from_bytes_empty (n : Nat) :
    from_bytes (empty_fingerprint n) = 0 := by
  rw [from_bytes, empty_fingerprint, from_bytes_aux_replicate_zero]
  simp

/-- A nonzero value below `2^(8n)` never packs to the all-zero sentinel. -/
theorem into_bytes_ne_empty (v n : Nat) (hn : n ≤ 4) (hv0 : 0 < v)
    (hv : v < 2 ^ (8 * n)) : into_bytes v n ≠ empty_fingerprint n := by
  intro hcon
  have h1 := from_bytes_into_bytes v n hn hv
  rw [hcon, from_bytes_empty] at h1
  omega

/-! ### Buffer lemmas: `write_bytes`, `chunk_at`, `find_chunk` -/

theorem getD_set (data : List Nat) (j i b : Nat) :
    (data.set j b).getD i 0
      = if j = i ∧ j < data.length then b else data.getD i 0 := by
  rw [List.getD_eq_getElem?_getD, List.getD_eq_getElem?_getD,
    List.getElem?_set]
  by_cases h1 : j = i
  · subst h1
    by_cases h2 : j < data.length
    · simp [h2]
    · rw [List.getElem?_eq_none (by omega)]
      simp [h2]
  · simp [h1]

theorem write_bytes_length (fp : List Nat) :
    ∀ data off, (write_bytes data off fp).length = data.length := by
  induction fp with
  | nil => intro data off; rfl
  | cons b rest ih =>
    intro data off
    rw [write_bytes, ih]
    simp

theorem write_bytes_getD_outside (fp : List Nat) :
    ∀ data off i, (i < off ∨ off + fp.length ≤ i) →
      (write_bytes data off fp).getD i 0 = data.getD i 0 := by
  induction fp with
  | nil => intro data off i _; rfl
  | cons b rest ih =>
    intro data off i h
    simp only [List.length_cons] at h
    rw [write_bytes, ih _ _ _ (by omega), getD_set]
    have hc : ¬ (off = i ∧ off < data.length) := by omega
    simp [hc]

theorem write_bytes_getD_inside (fp : List Nat) :
    ∀ data off i, off ≤ i → i < off + fp.length →
      off + fp.length ≤ data.length →
      (write_bytes data off fp).getD i 0 = fp.getD (i - off) 0 := by
  induction fp with
  | nil =>
    intro data off i h1 h2 _
    simp at h2
    omega
  | cons b rest ih =>
    intro data off i h1 h2 h3
    simp only [List.length_cons] at h2 h3
    rw [write_bytes]
    rcases Nat.eq_or_lt_of_le h1 with h4 | h4
    · rw [write_bytes_getD_outside rest _ _ _ (Or.inl (by omega)), getD_set]
      have hc : off = i ∧ off < data.length := ⟨h4, by omega⟩
      rw [if_pos hc, ← h4, Nat.sub_self]
      simp
    · rw [ih (data.set off b) (off + 1) i (by omega)
        (by omega) (by simp only [List.length_set]; omega)]
      have h5 : i - off = (i - (off + 1)) + 1 := by omega
      rw [h5]
      simp

theorem chunk_at_length (data : List Nat) (off n : Nat) :
    (chunk_at data off n).length = n := by
  simp [chunk_at]

theorem chunk_at_getD (data : List Nat) (off n i : Nat) (hi : i < n) :
    (chunk_at data off n).getD i 0 = data.getD (off + i) 0 := by
  rw [chunk_at, List.getD_eq_getElem?_getD, List.getElem?_map,
    List.getElem?_range hi]
  simp

theorem chunk_at_eq_iff (data : List Nat) (off n : Nat) (fp : List Nat)
    (h : fp.length = n) :
    chunk_at data off n = fp
      ↔ ∀ i, i < n → data.getD (off + i) 0 = fp.getD i 0 := by
  constructor
  · intro heq i hi
    rw [← chunk_at_getD data off n i hi, heq]
  · intro hpt
    apply List.ext_getElem
    · rw [chunk_at_length, h]
    · intro i h1 h2
      rw [chunk_at_length] at h1
      have h3 := hpt i h1
      rw [← chunk_at_getD data off n i h1] at h3
      rw [List.getD_eq_getElem?_getD, List.getD_eq_getElem?_getD,
        List.getElem?_eq_getElem h2,
        List.getElem?_eq_getElem (by rw [chunk_at_length]; exact h1)] at h3
      simpa using h3

theorem chunk_at_write_bytes_eq (data fp : List Nat) (off n : Nat)
    (hl : fp.length = n) (hb : off + n ≤ data.length) :
    chunk_at (write_bytes data off fp) off n = fp := by
  rw [chunk_at_eq_iff _ _ _ _ hl]
  intro i hi
  rw [write_bytes_getD_inside fp data off (off + i) (by omega)
    (by omega) (by omega)]
  congr 1
  omega

theorem chunk_at_write_bytes_disjoint (data fp : List Nat)
    (off off' n : Nat) (h : off' + n ≤ off ∨ off + fp.length ≤ off') :
    chunk_at (write_bytes data off fp) off' n = chunk_at data off' n := by
  rw [chunk_at_eq_iff _ _ _ _ (chunk_at_length data off' n)]
  intro i hi
  rw [write_bytes_getD_outside fp data off (off' + i) (by omega),
    chunk_at_getD data off' n i hi]

theorem chunk_at_replicate_zero (m off n : Nat) :
    chunk_at (List.replicate m 0) off n = empty_fingerprint n := by
  rw [chunk_at_eq_iff _ _ _ _ (by simp [empty_fingerprint])]
  intro i hi
  rw [empty_fingerprint, List.getD_eq_getElem?_getD,
    List.getD_eq_getElem?_getD, List.getElem?_replicate,
    List.getElem?_replicate]
  by_cases h1 : off + i < m <;> simp [h1, hi]

theorem find_chunk_none_iff (data : List Nat) (base fps : Nat)
    (target : List Nat) (idxs : List Nat) :
    find_chunk data base fps target idxs = none
      ↔ ∀ j ∈ idxs, chunk_at data (base + j * fps) fps ≠ target := by
  induction idxs with
  | nil => simp [find_chunk]
  | cons a rest ih =>
    rw [find_chunk]
    by_cases h : chunk_at data (base + a * fps) fps = target
    · simp [h]
    · simp [h, ih]

theorem find_chunk_some (data : List Nat) (base fps : Nat)
    (target : List Nat) (idxs : List Nat) (j : Nat)
    (h : find_chunk data base fps target idxs = some j) :
    j ∈ idxs ∧ chunk_at data (base + j * fps) fps = target := by
  induction idxs with
  | nil => simp [find_chunk] at h
  | cons a rest ih =>
    rw [find_chunk] at h
    by_cases h1 : chunk_at data (base + a * fps) fps = target
    · rw [if_pos h1] at h
      cases h
      exact ⟨List.mem_cons_self _ _, h1⟩
    · rw [if_neg h1] at h
      obtain ⟨h2, h3⟩ := ih h
      exact ⟨List.mem_cons_of_mem _ h2, h3⟩

theorem find_chunk_append (data : List Nat) (base fps : Nat)
    (target : List Nat) (l1 l2 : List Nat) :
    find_chunk data base fps target (l1 ++ l2)
      = match find_chunk data base fps target l1 with
        | some j => some j
        | none => find_chunk data base fps target l2 := by
  induction l1 with
  | nil => simp [find_chunk]
  | cons a rest ih =>
    rw [List.cons_append, find_chunk, find_chunk]
    by_cases h : chunk_at data (base + a * fps) fps = target
    · simp [h]
    · simp [h, ih]

theorem find_chunk_range_first (data : List Nat) (base fps : Nat)
    (target : List Nat) (n j : Nat)
    (h : find_chunk data base fps target (List.range n) = some j) :
    ∀ i, i < j → chunk_at data (base + i * fps) fps ≠ target := by
  intro i hij hcon
  obtain ⟨hmem, _⟩ := find_chunk_some data base fps target (List.range n) j h
  have hjn : j < n := List.mem_range.1 hmem
  have hsplit : List.range n
      = List.range (i + 1) ++ (List.range (n - (i + 1))).map (i + 1 + ·) := by
    rw [← List.range_add]
    congr 1
    omega
  rw [hsplit, find_chunk_append] at h
  have h1 : find_chunk data base fps target (List.range (i + 1)) ≠ none := by
    intro hnone
    rw [find_chunk_none_iff] at hnone
    exact hnone i (List.mem_range.2 (by omega)) hcon
  obtain ⟨j0, hj0⟩ := Option.ne_none_iff_exists'.1 h1
  rw [hj0] at h
  simp at h
  obtain ⟨hmem0, _⟩ :=
    find_chunk_some data base fps target (List.range (i + 1)) j0 hj0
  have : j0 < i + 1 := List.mem_range.1 hmem0
  omega

theorem find_chunk_isSome_iff (data : List Nat) (base fps : Nat)
    (target : List Nat) (idxs : List Nat) :
    (find_chunk data base fps target idxs).isSome = true
      ↔ ∃ j ∈ idxs, chunk_at data (base + j * fps) fps = target := by
  constructor
  · intro h
    obtain ⟨j, hj⟩ := Option.isSome_iff_exists.1 h
    obtain ⟨h1, h2⟩ := find_chunk_some data base fps target idxs j hj
    exact ⟨j, h1, h2⟩
  · intro ⟨j, h1, h2⟩
    rcases hf : find_chunk data base fps target idxs with _ | j0
    · rw [find_chunk_none_iff] at hf
      exact absurd h2 (hf j h1)
    · rfl

/-! ### Bucket-level specification lemmas -/

/-- Distinct slots of the bucket grid occupy disjoint byte ranges. -/
theorem slot_ranges_disjoint (fps b j b' j' : Nat)
    (hj : j < m_bucket_size) (hj' : j' < m_bucket_size)
    (hne : ¬ (b = b' ∧ j = j')) :
    b' * m_bucket_size * fps + j' * fps + fps
      ≤ b * m_bucket_size * fps + j * fps
    ∨ b * m_bucket_size * fps + j * fps + fps
      ≤ b' * m_bucket_size * fps + j' * fps := by
  rw [m_bucket_size] at hj hj' ⊢
  have e1 : b * 4 * fps + j * fps = (b * 4 + j) * fps := by ring
  have e2 : b' * 4 * fps + j' * fps = (b' * 4 + j') * fps := by ring
  rw [e1, e2]
  have hne2 : b * 4 + j ≠ b' * 4 + j' := by omega
  rcases Nat.lt_or_ge (b * 4 + j) (b' * 4 + j') with h | h
  · right
    have : (b * 4 + j + 1) * fps ≤ (b' * 4 + j') * fps :=
      Nat.mul_le_mul_right fps h
    calc (b * 4 + j) * fps + fps = (b * 4 + j + 1) * fps := by ring
      _ ≤ (b' * 4 + j') * fps := this
  · left
    have hlt : b' * 4 + j' < b * 4 + j := by omega
    have : (b' * 4 + j' + 1) * fps ≤ (b * 4 + j) * fps :=
      Nat.mul_le_mul_right fps hlt
    calc (b' * 4 + j') * fps + fps = (b' * 4 + j' + 1) * fps := by ring
      _ ≤ (b * 4 + j) * fps := this

/-- Number of slots the bucket iterators see:
`distance / fingerprint_size = m_bucket_size`. -/
theorem bucket_range_div (fps : Nat) (h : 0 < fps) :
    m_bucket_size * fps / fps = m_bucket_size :=
  Nat.mul_div_cancel m_bucket_size h

/-- `Bucket::insert` success is equivalent to the existence of an empty
slot. -/
theorem bucket_insert_success_iff (data fp : List Nat) (base fps : Nat)
    (h : 0 < fps) :
    (bucket_insert data base (m_bucket_size * fps) fps fp).1 = true
      ↔ ∃ j, j < m_bucket_size
          ∧ chunk_at data (base + j * fps) fps = empty_fingerprint fps := by
  rw [bucket_insert, bucket_range_div fps h]
  rcases hf : find_chunk data base fps (empty_fingerprint fps)
      (List.range m_bucket_size) with _ | j
  · rw [find_chunk_none_iff] at hf
    constructor
    · intro hcon
      exact absurd hcon (by simp)
    · intro ⟨j, h1, h2⟩
      exact absurd h2 (hf j (List.mem_range.2 h1))
  · constructor
    · intro _
      obtain ⟨h1, h2⟩ := find_chunk_some _ _ _ _ _ _ hf
      exact ⟨j, List.mem_range.1 h1, h2⟩
    · intro _
      rfl

/-- On success, `Bucket::insert` writes `fp` into the first empty slot. -/
theorem bucket_insert_success_spec (data fp : List Nat) (base fps : Nat)
    (h : 0 < fps)
    (hs : (bucket_insert data base (m_bucket_size * fps) fps fp).1 = true) :
    ∃ j, j < m_bucket_size
      ∧ chunk_at data (base + j * fps) fps = empty_fingerprint fps
      ∧ (∀ i, i < j → chunk_at data (base + i * fps) fps
          ≠ empty_fingerprint fps)
      ∧ (bucket_insert data base (m_bucket_size * fps) fps fp).2
          = write_bytes data (base + j * fps) fp := by
  rw [bucket_insert, bucket_range_div fps h] at hs ⊢
  rcases hf : find_chunk data base fps (empty_fingerprint fps)
      (List.range m_bucket_size) with _ | j
  · rw [hf] at hs
    simp at hs
  · obtain ⟨h1, h2⟩ := find_chunk_some _ _ _ _ _ _ hf
    refine ⟨j, List.mem_range.1 h1, h2,
      find_chunk_range_first _ _ _ _ _ _ hf, rfl⟩

/-- On failure, `Bucket::insert` leaves the buffer unchanged and every
slot is non-empty. -/
theorem bucket_insert_failure_spec (data fp : List Nat) (base fps : Nat)
    (h : 0 < fps)
    (hs : (bucket_insert data base (m_bucket_size * fps) fps fp).1 = false) :
    (bucket_insert data base (m_bucket_size * fps) fps fp).2 = data
      ∧ ∀ j, j < m_bucket_size →
          chunk_at data (base + j * fps) fps ≠ empty_fingerprint fps := by
  rw [bucket_insert, bucket_range_div fps h] at hs ⊢
  rcases hf : find_chunk data base fps (empty_fingerprint fps)
      (List.range m_bucket_size) with _ | j
  · rw [find_chunk_none_iff] at hf
    exact ⟨rfl, fun j hj => hf j (List.mem_range.2 hj)⟩
  · rw [hf] at hs
    simp at hs

/-- `Bucket::contains` is true iff the fingerprint appears at one of the
scanned chunk positions (the buggy over-scanned `cend` view). -/
theorem bucket_contains_iff (data fp : List Nat) (base fps : Nat) :
    bucket_contains data base (m_bucket_size * fps) fps fp = true
      ↔ ∃ j, j < m_bucket_size * fps
          ∧ chunk_at data (base + j * fps) fps = fp := by
  rw [bucket_contains, find_chunk_isSome_iff]
  constructor
  · intro ⟨j, h1, h2⟩
    exact ⟨j, List.mem_range.1 h1, h2⟩
  · intro ⟨j, h1, h2⟩
    exact ⟨j, List.mem_range.2 h1, h2⟩

/-- A fingerprint sitting in one of the four real slots is found by
`Bucket::contains`. -/
theorem bucket_contains_of_slot (data fp : List Nat) (base fps j : Nat)
    (h : 0 < fps) (hj : j < m_bucket_size)
    (hc : chunk_at data (base + j * fps) fps = fp) :
    bucket_contains data base (m_bucket_size * fps) fps fp = true := by
  rw [bucket_contains_iff]
  refine ⟨j, ?_, hc⟩
  calc j < m_bucket_size := hj
    _ = m_bucket_size * 1 := by ring
    _ ≤ m_bucket_size * fps := Nat.mul_le_mul_left m_bucket_size h

/-- On success, `Bucket::erase` zeroes the first slot holding `fp`. -/
theorem bucket_erase_success_spec (data fp : List Nat) (base fps : Nat)
    (h : 0 < fps)
    (hs : (bucket_erase data base (m_bucket_size * fps) fps fp).1 = true) :
    ∃ j, j < m_bucket_size
      ∧ chunk_at data (base + j * fps) fps = fp
      ∧ (bucket_erase data base (m_bucket_size * fps) fps fp).2
          = write_bytes data (base + j * fps) (empty_fingerprint fps) := by
  rw [bucket_erase, bucket_range_div fps h] at hs ⊢
  rcases hf : find_chunk data base fps fp (List.range m_bucket_size)
      with _ | j
  · rw [hf] at hs
    simp at hs
  · obtain ⟨h1, h2⟩ := find_chunk_some _ _ _ _ _ _ hf
    exact ⟨j, List.mem_range.1 h1, h2, rfl⟩

/-- On failure, `Bucket::erase` leaves the buffer unchanged and no slot
holds `fp`. -/
theorem bucket_erase_failure_spec (data fp : List Nat) (base fps : Nat)
    (h : 0 < fps)
    (hs : (bucket_erase data base (m_bucket_size * fps) fps fp).1 = false) :
    (bucket_erase data base (m_bucket_size * fps) fps fp).2 = data
      ∧ ∀ j, j < m_bucket_size →
          chunk_at data (base + j * fps) fps ≠ fp := by
  rw [bucket_erase, bucket_range_div fps h] at hs ⊢
  rcases hf : find_chunk data base fps fp (List.range m_bucket_size)
      with _ | j
  · rw [find_chunk_none_iff] at hf
    exact ⟨rfl, fun j hj => hf j (List.mem_range.2 hj)⟩
  · rw [hf] at hs
    simp at hs

/-- Bucket operations never change the buffer length. -/
theorem bucket_insert_length (data fp : List Nat) (base rl fps : Nat) :
    (bucket_insert data base rl fps fp).2.length = data.length := by
  rw [bucket_insert]
  rcases hf : find_chunk data base fps (empty_fingerprint fps)
      (List.range (rl / fps)) with _ | j
  · rfl
  · exact write_bytes_length fp data _

theorem bucket_erase_length (data fp : List Nat) (base rl fps : Nat) :
    (bucket_erase data base rl fps fp).2.length = data.length := by
  rw [bucket_erase]
  rcases hf : find_chunk data base fps fp (List.range (rl / fps)) with _ | j
  · rfl
  · exact write_bytes_length _ data _

theorem bucket_swap_length (data fp : List Nat) (base fps k : Nat) :
    (bucket_swap data base fps k fp).2.length = data.length :=
  write_bytes_length fp data _

theorem bucket_swap_chunk_length (data fp : List Nat) (base fps k : Nat) :
    (bucket_swap data base fps k fp).1.length = fps :=
  chunk_at_length data _ fps

/-! ### Index and fingerprint derivation lemmas -/

theorem fp_of_eq (f : CuckooFilter) (item : Nat) :
    fp_of f item = into_bytes
      (if f.m_strong_hash_fn (f.weak_hash_fn item % 2 ^ 64) % 2 ^ 64 % 2 ^ 32
          / 2 ^ (32 - f.m_fingerprint_size * 8) = 0 then 1
       else f.m_strong_hash_fn (f.weak_hash_fn item % 2 ^ 64) % 2 ^ 64
          % 2 ^ 32 / 2 ^ (32 - f.m_fingerprint_size * 8))
      f.m_fingerprint_size := rfl

theorem index_of_eq (f : CuckooFilter) (item : Nat) :
    index_of f item
      = f.m_strong_hash_fn (f.weak_hash_fn item % 2 ^ 64) % 2 ^ 64 / 2 ^ 32
        % f.m_bucket_count := rfl

theorem alt_of_eq (f : CuckooFilter) (item : Nat) :
    alt_of f item = get_alt_index f (index_of f item) (fp_of f item) := rfl

theorem indexes_tuple_eq (f : CuckooFilter) (item : Nat) :
    get_indexes_and_fingerprint_for f item
      = (index_of f item, alt_of f item, fp_of f item) := rfl

/-- XOR with the same fingerprint-derived offset twice is the identity:
the self-inverse property behind partial-key cuckoo hashing. -/
theorem get_alt_index_involution (f : CuckooFilter) (i : Nat)
    (fp : List Nat) : get_alt_index f (get_alt_index f i fp) fp = i := by
  rw [get_alt_index, get_alt_index]
  exact Nat.xor_cancel_right _ _

/-- With a power-of-two bucket count, the alternate index stays in
range. -/
theorem get_alt_index_lt (f : CuckooFilter)
    (hpow : ∃ k, f.m_bucket_count = 2 ^ k) (i : Nat) (fp : List Nat)
    (hi : i < f.m_bucket_count) :
    get_alt_index f i fp < f.m_bucket_count := by
  obtain ⟨k, hk⟩ := hpow
  rw [get_alt_index]
  have hbc : 0 < f.m_bucket_count := by
    rw [hk]
    positivity
  have h2 : f.m_strong_hash_fn (from_bytes fp) % 2 ^ 32 % f.m_bucket_count
      < f.m_bucket_count := Nat.mod_lt _ hbc
  rw [hk] at hi h2 ⊢
  exact Nat.xor_lt_two_pow hi h2

theorem index_of_lt (f : CuckooFilter) (item : Nat)
    (hbc : 0 < f.m_bucket_count) : index_of f item < f.m_bucket_count := by
  rw [index_of_eq]
  exact Nat.mod_lt _ hbc

theorem alt_of_lt (f : CuckooFilter) (item : Nat)
    (hpow : ∃ k, f.m_bucket_count = 2 ^ k) :
    alt_of f item < f.m_bucket_count := by
  have hbc : 0 < f.m_bucket_count := by
    obtain ⟨k, hk⟩ := hpow
    rw [hk]
    positivity
  rw [alt_of_eq]
  exact get_alt_index_lt f hpow _ _ (index_of_lt f item hbc)

theorem alt_of_alt (f : CuckooFilter) (item : Nat) :
    get_alt_index f (alt_of f item) (fp_of f item) = index_of f item := by
  rw [alt_of_eq]
  exact get_alt_index_involution f _ _

/-- The derived fingerprint packs a nonzero value that fits in
`fingerprint_size` bytes. -/
theorem fp_of_val (f : CuckooFilter) (item : Nat)
    (h1 : 0 < f.m_fingerprint_size) (h2 : f.m_fingerprint_size ≤ 4) :
    ∃ v, 0 < v ∧ v < 2 ^ (8 * f.m_fingerprint_size)
      ∧ fp_of f item = into_bytes v f.m_fingerprint_size := by
  rw [fp_of_eq]
  by_cases h0 : f.m_strong_hash_fn (f.weak_hash_fn item % 2 ^ 64) % 2 ^ 64
      % 2 ^ 32 / 2 ^ (32 - f.m_fingerprint_size * 8) = 0
  · refine ⟨1, Nat.one_pos, ?_, by rw [if_pos h0]⟩
    exact Nat.one_lt_pow (by omega) (by norm_num)
  · refine ⟨_, Nat.pos_of_ne_zero h0, ?_, by rw [if_neg h0]⟩
    rw [Nat.div_lt_iff_lt_mul (Nat.pos_pow_of_pos _ (by norm_num))]
    calc f.m_strong_hash_fn (f.weak_hash_fn item % 2 ^ 64) % 2 ^ 64 % 2 ^ 32
        < 2 ^ 32 := Nat.mod_lt _ (by norm_num)
      _ = 2 ^ (8 * f.m_fingerprint_size)
          * 2 ^ (32 - f.m_fingerprint_size * 8) := by
        rw [← pow_add]
        congr 1
        omega

theorem fp_of_length (f : CuckooFilter) (item : Nat) :
    (fp_of f item).length = f.m_fingerprint_size := by
  rw [fp_of_eq, into_bytes_length]

/-- The derived fingerprint is never the all-zero sentinel. -/
theorem fp_of_ne_empty (f : CuckooFilter) (item : Nat)
    (h1 : 0 < f.m_fingerprint_size) (h2 : f.m_fingerprint_size ≤ 4) :
    fp_of f item ≠ empty_fingerprint f.m_fingerprint_size := by
  obtain ⟨v, hv0, hvlt, heq⟩ := fp_of_val f item h1 h2
  rw [heq]
  exact into_bytes_ne_empty v _ h2 hv0 hvlt

/-- Everything the `insert` wrapper does to the record, in one normal
form. -/
theorem insert_snd_eq (f : CuckooFilter) (item : Nat) (coin : Bool)
    (picks : List Nat) :
    (insert f item coin picks).2
      = { f with m_data := (insert_run f item coin picks).data,
                 m_size := if (insert_run f item coin picks).inserted
                   then (f.m_size + 1) % 2 ^ 64 else f.m_size }
      ∧ (insert f item coin picks).1
        = (insert_run f item coin picks).inserted := by
  rw [insert]
  by_cases h : (insert_run f item coin picks).inserted <;> simp [h]

/-- Slots of one bucket at distinct indices occupy disjoint byte
ranges. -/
theorem slot_offsets_disjoint (base fps j j' : Nat) (hne : j ≠ j') :
    base + j' * fps + fps ≤ base + j * fps
    ∨ base + j * fps + fps ≤ base + j' * fps := by
  rcases Nat.lt_or_ge j' j with h | h
  · left
    have h1 : (j' + 1) * fps ≤ j * fps := Nat.mul_le_mul_right fps h
    calc base + j' * fps + fps = base + (j' + 1) * fps := by ring
      _ ≤ base + j * fps := by omega
  · have hlt : j < j' := by omega
    right
    have h1 : (j + 1) * fps ≤ j' * fps := Nat.mul_le_mul_right fps hlt
    calc base + j * fps + fps = base + (j + 1) * fps := by ring
      _ ≤ base + j' * fps := by omega

/-! ### Claim theorems -/

/-- C1: for every bucket index `i < bucket_count` and every fingerprint of
`fingerprint_size` bytes with nonzero integer value,
`get_alt_index (get_alt_index i fp) fp = i` — the XOR-based alternate
index relation is self-inverse. -/
theorem C1_alt_index_involution (f : CuckooFilter) (i : Nat)
    (fp : List Nat) (hi : i < f.m_bucket_count)
    (hlen : fp.length = f.m_fingerprint_size)
    (hnz : 0 < from_bytes fp) :
    get_alt_index f (get_alt_index f i fp) fp = i :=
  get_alt_index_involution f i fp

theorem C1_witness :
    5 < (CuckooFilter.mk 8 2 10 (fun x => x) (fun x => x) 32
      (List.replicate 64 0) 0).m_bucket_count
    ∧ ([1, 0] : List Nat).length
      = (CuckooFilter.mk 8 2 10 (fun x => x) (fun x => x) 32
          (List.replicate 64 0) 0).m_fingerprint_size
    ∧ 0 < from_bytes [1, 0]
    ∧ get_alt_index
        (CuckooFilter.mk 8 2 10 (fun x => x) (fun x => x) 32
          (List.replicate 64 0) 0)
        (get_alt_index
          (CuckooFilter.mk 8 2 10 (fun x => x) (fun x => x) 32
            (List.replicate 64 0) 0) 5 [1, 0]) [1, 0] = 5 :=
  ⟨by norm_num, by decide, by decide,
    C1_alt_index_involution _ 5 [1, 0] (by norm_num) (by decide) (by decide)⟩

/-- C9 counterexample: the declared default of `max_relocations` is 10,
not "on the order of several hundred" (it is not even ≥ 100). -/
theorem C9_counterexample :
    default_max_relocations = 10 ∧ ¬ 100 ≤ default_max_relocations := by
  decide

/-- C9 (amended): when `max_relocations` is not supplied at construction,
its default value is 10. -/
theorem C9_default_value : default_max_relocations = 10 := rfl

/-- C8: constructing with `fingerprint_size` outside 1..4 fails fast (the
asserts reject it); and no capacity ever rounds to zero buckets —
`ceil_to_power_of_two` is always positive, so the zero-bucket case of the
claim is vacuously fail-fast. -/
theorem C8_construction_fail_fast :
    (∀ capacity fps mr : Nat, ∀ sh wh : Nat → Nat,
      (fps = 0 ∨ 4 < fps) → mk_cuckoo_filter capacity fps mr sh wh = none)
    ∧ ∀ capacity : Nat,
        0 < ceil_to_power_of_two (capacity / m_bucket_size) := by
  constructor
  · intro capacity fps mr sh wh h
    rw [mk_cuckoo_filter, if_neg (by omega)]
  · intro capacity
    exact ceil_to_power_of_two_pos _

theorem C8_witness :
    ((5 : Nat) = 0 ∨ 4 < 5)
    ∧ mk_cuckoo_filter 1024 5 10 (fun x => x) (fun x => x) = none :=
  ⟨Or.inr (by norm_num),
    C8_construction_fail_fast.1 1024 5 10 _ _ (Or.inr (by norm_num))⟩

/-- C3 (code bug): after constructing with capacity 12 and
fingerprint_size 1, the buffer is zero-filled but its length is
`capacity * fingerprint_size = 12`, not the
`bucket_count * bucket_size * fingerprint_size = 16` bytes the spec (and
`get_bucket`'s own geometry) requires. -/
theorem C3_allocation_mismatch :
    ∃ f, mk_cuckoo_filter 12 1 10 (fun x => x) (fun x => x) = some f
      ∧ f.m_data.length = 12
      ∧ f.m_bucket_count * (m_bucket_size * f.m_fingerprint_size) = 16
      ∧ f.m_data.length
          ≠ f.m_bucket_count * (m_bucket_size * f.m_fingerprint_size)
      ∧ ∀ b ∈ f.m_data, b = 0 := by
  refine ⟨_, rfl, by decide, by decide, by decide, ?_⟩
  intro b hb
  have := List.eq_of_mem_replicate hb
  exact this

/-- C10 (code bug): with capacity 12 and fingerprint_size 1, the filter
derives bucket index 3 (e.g. under a strong hash returning `3 * 2^32`),
and `get_bucket`'s byte range for that bucket, `[12, 16)`, extends past
the 12-byte backing buffer. -/
theorem C10_out_of_bounds :
    ∃ f, mk_cuckoo_filter 12 1 10 (fun _ => 3 * 2 ^ 32) (fun x => x)
        = some f
      ∧ f.m_bucket_count = 4
      ∧ index_of f 0 = 3
      ∧ index_of f 0 < f.m_bucket_count
      ∧ f.m_data.length
          < get_bucket_begin f (index_of f 0) + get_bucket_range f := by
  refine ⟨_, rfl, by decide, by decide, by decide, by decide⟩

/-- C7: the derived fingerprint is the top `fingerprint_size * 8` bits of
the low 32-bit half of `strong_hash (weak_hash item)`, remapped to 1 when
zero; its integer value therefore lies in `1..2^(8*fps) - 1` and its byte
vector is never the all-zero empty-slot sentinel. -/
theorem C7_fingerprint_spec (f : CuckooFilter) (item : Nat)
    (h1 : 0 < f.m_fingerprint_size) (h2 : f.m_fingerprint_size ≤ 4) :
    fp_of f item = into_bytes
      (if f.m_strong_hash_fn (f.weak_hash_fn item % 2 ^ 64) % 2 ^ 64 % 2 ^ 32
          / 2 ^ (32 - f.m_fingerprint_size * 8) = 0 then 1
       else f.m_strong_hash_fn (f.weak_hash_fn item % 2 ^ 64) % 2 ^ 64
          % 2 ^ 32 / 2 ^ (32 - f.m_fingerprint_size * 8))
      f.m_fingerprint_size
    ∧ 1 ≤ from_bytes (fp_of f item)
    ∧ from_bytes (fp_of f item) < 2 ^ (8 * f.m_fingerprint_size)
    ∧ fp_of f item ≠ empty_fingerprint f.m_fingerprint_size := by
  obtain ⟨v, hv0, hvlt, heq⟩ := fp_of_val f item h1 h2
  have hround : from_bytes (fp_of f item) = v := by
    rw [heq]
    exact from_bytes_into_bytes v _ h2 hvlt
  refine ⟨fp_of_eq f item, ?_, ?_, fp_of_ne_empty f item h1 h2⟩
  · omega
  · omega

theorem C7_witness :
    1 ≤ from_bytes (fp_of (CuckooFilter.mk 1 1 10 (fun x => x)
        (fun x => x) 4 (List.replicate 4 0) 0) 0)
    ∧ from_bytes (fp_of (CuckooFilter.mk 1 1 10 (fun x => x)
        (fun x => x) 4 (List.replicate 4 0) 0) 0) < 2 ^ 8
    ∧ fp_of (CuckooFilter.mk 1 1 10 (fun x => x)
        (fun x => x) 4 (List.replicate 4 0) 0) 0 ≠ empty_fingerprint 1 :=
  ⟨(C7_fingerprint_spec _ 0 (by norm_num) (by norm_num)).2.1,
    (C7_fingerprint_spec _ 0 (by norm_num) (by norm_num)).2.2.1,
    (C7_fingerprint_spec _ 0 (by norm_num) (by norm_num)).2.2.2⟩

/-- C6: `Bucket::insert` with a nonzero fingerprint: if some slot is
all-zero it copies the fingerprint into the first such slot and returns
true (other slots unchanged); if no slot is all-zero it returns false and
leaves the buffer unchanged.  Consequently a 4-slot bucket accepts exactly
4 fingerprints and a 5th direct insert fails leaving them unchanged (the
concrete chain is part of the statement). -/
theorem C6_bucket_insert_spec :
    (∀ data fp : List Nat, ∀ base fps : Nat,
      0 < fps → fp.length = fps → fp ≠ empty_fingerprint fps →
      base + m_bucket_size * fps ≤ data.length →
      ((∃ j, j < m_bucket_size
          ∧ chunk_at data (base + j * fps) fps = empty_fingerprint fps) →
        (bucket_insert data base (m_bucket_size * fps) fps fp).1 = true
        ∧ ∃ j, j < m_bucket_size
          ∧ chunk_at data (base + j * fps) fps = empty_fingerprint fps
          ∧ (∀ i, i < j →
              chunk_at data (base + i * fps) fps ≠ empty_fingerprint fps)
          ∧ chunk_at (bucket_insert data base (m_bucket_size * fps) fps fp).2
              (base + j * fps) fps = fp
          ∧ ∀ j', j' < m_bucket_size → j' ≠ j →
              chunk_at (bucket_insert data base (m_bucket_size * fps)
                  fps fp).2 (base + j' * fps) fps
                = chunk_at data (base + j' * fps) fps)
      ∧ ((∀ j, j < m_bucket_size →
            chunk_at data (base + j * fps) fps ≠ empty_fingerprint fps) →
        (bucket_insert data base (m_bucket_size * fps) fps fp).1 = false
        ∧ (bucket_insert data base (m_bucket_size * fps) fps fp).2 = data))
    ∧ bucket_insert [0, 0, 0, 0] 0 (m_bucket_size * 1) 1 [1]
        = (true, [1, 0, 0, 0])
    ∧ bucket_insert [1, 0, 0, 0] 0 (m_bucket_size * 1) 1 [2]
        = (true, [1, 2, 0, 0])
    ∧ bucket_insert [1, 2, 0, 0] 0 (m_bucket_size * 1) 1 [3]
        = (true, [1, 2, 3, 0])
    ∧ bucket_insert [1, 2, 3, 0] 0 (m_bucket_size * 1) 1 [4]
        = (true, [1, 2, 3, 4])
    ∧ bucket_insert [1, 2, 3, 4] 0 (m_bucket_size * 1) 1 [5]
        = (false, [1, 2, 3, 4]) := by
  refine ⟨?_, by decide, by decide, by decide, by decide, by decide⟩
  intro data fp base fps hfps hlen hne hb
  constructor
  · intro hex
    have hsucc : (bucket_insert data base (m_bucket_size * fps) fps fp).1
        = true := by
      rw [bucket_insert_success_iff data fp base fps hfps]
      obtain ⟨j, h1, h2⟩ := hex
      exact ⟨j, h1, h2⟩
    obtain ⟨j, h1, h2, h3, h4⟩ :=
      bucket_insert_success_spec data fp base fps hfps hsucc
    refine ⟨hsucc, j, h1, h2, h3, ?_, ?_⟩
    · rw [h4]
      apply chunk_at_write_bytes_eq data fp _ fps hlen
      have : (j + 1) * fps ≤ m_bucket_size * fps :=
        Nat.mul_le_mul_right fps (by omega)
      calc base + j * fps + fps = base + (j + 1) * fps := by ring
        _ ≤ base + m_bucket_size * fps := by omega
        _ ≤ data.length := hb
    · intro j' hj' hne'
      rw [h4]
      apply chunk_at_write_bytes_disjoint
      rw [hlen]
      exact slot_offsets_disjoint base fps j j' (fun h => hne' h.symm)
  · intro hall
    have hfail : (bucket_insert data base (m_bucket_size * fps) fps fp).1
        = false := by
      rcases hres : (bucket_insert data base (m_bucket_size * fps)
          fps fp).1 with _ | _
      · rfl
      · rw [bucket_insert_success_iff data fp base fps hfps] at hres
        obtain ⟨j, h1, h2⟩ := hres
        exact absurd h2 (hall j h1)
    exact ⟨hfail,
      (bucket_insert_failure_spec data fp base fps hfps hfail).1⟩

theorem C6_witness :
    (bucket_insert [0, 9, 0, 0] 0 (m_bucket_size * 1) 1 [7]).1 = true
    ∧ chunk_at (bucket_insert [0, 9, 0, 0] 0 (m_bucket_size * 1) 1 [7]).2
        (0 + 0 * 1) 1 = [7] := by
  have h := (C6_bucket_insert_spec.1 [0, 9, 0, 0] [7] 0 1 (by norm_num)
    (by decide) (by decide) (by decide)).1 ⟨0, by decide, by decide⟩
  obtain ⟨hs, j, hj, hemp, hfirst, hchunk, _⟩ := h
  have hj0 : j = 0 := by
    by_contra hne
    exact hfirst 0 (by omega) (by decide)
  constructor
  · exact hs
  · rw [hj0] at hchunk
    exact hchunk

/-! ### Relocation-loop accounting lemmas -/

theorem relocate_steps_le (f : CuckooFilter) :
    ∀ fuel data v b picks,
      (relocate f fuel data v b picks).steps ≤ fuel := by
  intro fuel
  induction fuel with
  | zero => intro data v b picks; exact Nat.le_refl 0
  | succ n ih =>
    intro data v b picks
    rw [relocate]
    by_cases h : (bucket_insert data (get_bucket_begin f b)
        (get_bucket_range f) f.m_fingerprint_size v).1 = true
    · rw [if_pos h]
      dsimp only
      omega
    · rw [if_neg h]
      dsimp only
      have := ih (bucket_swap data (get_bucket_begin f b)
          f.m_fingerprint_size (picks.headD 0 % m_bucket_size) v).2
        (bucket_swap data (get_bucket_begin f b)
          f.m_fingerprint_size (picks.headD 0 % m_bucket_size) v).1
        (get_alt_index f b (bucket_swap data (get_bucket_begin f b)
          f.m_fingerprint_size (picks.headD 0 % m_bucket_size) v).1)
        picks.tail
      omega

theorem relocate_failure_steps (f : CuckooFilter) :
    ∀ fuel data v b picks,
      (relocate f fuel data v b picks).inserted = false →
      (relocate f fuel data v b picks).steps = fuel := by
  intro fuel
  induction fuel with
  | zero => intro data v b picks _; rfl
  | succ n ih =>
    intro data v b picks hfail
    rw [relocate] at hfail ⊢
    by_cases h : (bucket_insert data (get_bucket_begin f b)
        (get_bucket_range f) f.m_fingerprint_size v).1 = true
    · rw [if_pos h] at hfail
      simp at hfail
    · rw [if_neg h] at hfail ⊢
      dsimp only at hfail ⊢
      rw [ih _ _ _ _ hfail]

theorem insert_run_steps_le (f : CuckooFilter) (item : Nat) (coin : Bool)
    (picks : List Nat) :
    (insert_run f item coin picks).steps ≤ f.m_max_relocations := by
  rw [insert_run]
  by_cases h : (bucket_insert f.m_data
      (get_bucket_begin f (if coin
        then (get_indexes_and_fingerprint_for f item).1
        else (get_indexes_and_fingerprint_for f item).2.1))
      (get_bucket_range f) f.m_fingerprint_size
      (get_indexes_and_fingerprint_for f item).2.2).1 = true
  · rw [if_pos h]
    exact Nat.zero_le _
  · rw [if_neg h]
    exact relocate_steps_le f _ _ _ _ _

theorem insert_run_failure_steps (f : CuckooFilter) (item : Nat)
    (coin : Bool) (picks : List Nat)
    (hfail : (insert_run f item coin picks).inserted = false) :
    (insert_run f item coin picks).steps = f.m_max_relocations := by
  rw [insert_run] at hfail ⊢
  by_cases h : (bucket_insert f.m_data
      (get_bucket_begin f (if coin
        then (get_indexes_and_fingerprint_for f item).1
        else (get_indexes_and_fingerprint_for f item).2.1))
      (get_bucket_range f) f.m_fingerprint_size
      (get_indexes_and_fingerprint_for f item).2.2).1 = true
  · rw [if_pos h] at hfail
    simp at hfail
  · rw [if_neg h] at hfail ⊢
    exact relocate_failure_steps f _ _ _ _ _ hfail

/-- The two sequential erase attempts of `CuckooFilter::erase`, in one
normal form. -/
theorem erase_cases (f : CuckooFilter) (item : Nat) :
    ((erase f item).1 = true →
      (erase f item).2.m_size = (f.m_size + (2 ^ 64 - 1)) % 2 ^ 64)
    ∧ ((erase f item).1 = false → (erase f item).2 = f) := by
  rw [erase]
  by_cases h1 : (bucket_erase f.m_data
      (get_bucket_begin f (get_indexes_and_fingerprint_for f item).1)
      (get_bucket_range f) f.m_fingerprint_size
      (get_indexes_and_fingerprint_for f item).2.2).1 = true
  · rw [if_pos h1]
    refine ⟨fun _ => rfl, fun hcon => ?_⟩
    simp at hcon
  · rw [if_neg h1]
    by_cases h2 : (bucket_erase f.m_data
        (get_bucket_begin f (get_indexes_and_fingerprint_for f item).2.1)
        (get_bucket_range f) f.m_fingerprint_size
        (get_indexes_and_fingerprint_for f item).2.2).1 = true
    · rw [if_pos h2]
      refine ⟨fun _ => rfl, fun hcon => ?_⟩
      simp at hcon
    · rw [if_neg h2]
      refine ⟨fun hcon => ?_, fun _ => rfl⟩
      simp at hcon

/-- `Bucket::contains` on an all-zero buffer fails for any non-sentinel
fingerprint. -/
theorem bucket_contains_zero (m base rl fps : Nat) (fp : List Nat)
    (hne : fp ≠ empty_fingerprint fps) :
    bucket_contains (List.replicate m 0) base rl fps fp = false := by
  rcases hcb : bucket_contains (List.replicate m 0) base rl fps fp
    with _ | _
  · rfl
  · rw [bucket_contains] at hcb
    obtain ⟨j, _, hchunk⟩ := (find_chunk_isSome_iff _ _ _ _ _).1 hcb
    rw [chunk_at_replicate_zero] at hchunk
    exact absurd hchunk.symm hne

/-- `contains` is false on a cleared filter for every item. -/
theorem contains_clear (f : CuckooFilter) (other : Nat)
    (h1 : 0 < f.m_fingerprint_size) (h2 : f.m_fingerprint_size ≤ 4) :
    contains (clear f) other = false := by
  rw [contains]
  have hfp : (get_indexes_and_fingerprint_for (clear f) other).2.2
      ≠ empty_fingerprint (clear f).m_fingerprint_size :=
    fp_of_ne_empty (clear f) other h1 h2
  have hd : (clear f).m_data = List.replicate f.m_data.length 0 := rfl
  rw [hd]
  rw [bucket_contains_zero _ _ _ _ _ hfp, bucket_contains_zero _ _ _ _ _ hfp]
  rfl

/-- C4: the relocation loop executes at most `max_relocations` iterations;
when it is exhausted, insert returns false, the live size counter is
unchanged and the buffer keeps exactly the cascade's mutations.  The
concrete run (one full bucket, two relocations) shows the final in-hand
fingerprint `[2]` is dropped — it is in no bucket of the resulting filter
— and the pre-insert buffer `[1,2,3,4]` is not restored. -/
theorem C4_insert_bounded :
    (∀ (f : CuckooFilter) (item : Nat) (coin : Bool) (picks : List Nat),
      (insert_run f item coin picks).steps ≤ f.m_max_relocations
      ∧ ((insert f item coin picks).1 = false →
          (insert f item coin picks).2.m_size = f.m_size
          ∧ (insert_run f item coin picks).steps = f.m_max_relocations
          ∧ (insert f item coin picks).2.m_data
            = (insert_run f item coin picks).data))
    ∧ (insert (CuckooFilter.mk 1 1 2 (fun x => x) (fun x => x) 4
        [1, 2, 3, 4] 4) (5 * 2 ^ 24) true [0, 1]).1 = false
    ∧ (insert (CuckooFilter.mk 1 1 2 (fun x => x) (fun x => x) 4
        [1, 2, 3, 4] 4) (5 * 2 ^ 24) true [0, 1]).2.m_data = [5, 1, 3, 4]
    ∧ (insert (CuckooFilter.mk 1 1 2 (fun x => x) (fun x => x) 4
        [1, 2, 3, 4] 4) (5 * 2 ^ 24) true [0, 1]).2.m_data ≠ [1, 2, 3, 4]
    ∧ (insert (CuckooFilter.mk 1 1 2 (fun x => x) (fun x => x) 4
        [1, 2, 3, 4] 4) (5 * 2 ^ 24) true [0, 1]).2.m_size = 4
    ∧ (insert_run (CuckooFilter.mk 1 1 2 (fun x => x) (fun x => x) 4
        [1, 2, 3, 4] 4) (5 * 2 ^ 24) true [0, 1]).in_hand = [2]
    ∧ bucket_contains (insert (CuckooFilter.mk 1 1 2 (fun x => x)
        (fun x => x) 4 [1, 2, 3, 4] 4) (5 * 2 ^ 24) true
        [0, 1]).2.m_data 0 (m_bucket_size * 1) 1 [2] = false := by
  refine ⟨?_, by decide, by decide, by decide, by decide, by decide,
    by decide⟩
  intro f item coin picks
  obtain ⟨hrec, hflag⟩ := insert_snd_eq f item coin picks
  refine ⟨insert_run_steps_le f item coin picks, fun hfalse => ?_⟩
  rw [hflag] at hfalse
  refine ⟨?_, insert_run_failure_steps f item coin picks hfalse, ?_⟩
  · rw [hrec]
    simp [hfalse]
  · rw [hrec]

theorem C4_witness :
    (insert (CuckooFilter.mk 1 1 2 (fun x => x) (fun x => x) 4
      [1, 2, 3, 4] 4) (5 * 2 ^ 24) true [0, 1]).2.m_size = 4
    ∧ (insert_run (CuckooFilter.mk 1 1 2 (fun x => x) (fun x => x) 4
      [1, 2, 3, 4] 4) (5 * 2 ^ 24) true [0, 1]).steps = 2 :=
  have h := (C4_insert_bounded.1 (CuckooFilter.mk 1 1 2 (fun x => x)
    (fun x => x) 4 [1, 2, 3, 4] 4) (5 * 2 ^ 24) true [0, 1]).2 (by decide)
  ⟨h.1, h.2.1⟩

/-- C5: successful insert increments size by exactly one (also from the
freshly constructed size 0); failed insert leaves it unchanged; successful
erase decrements it by exactly one; failed erase leaves it unchanged;
after `clear` the size is 0 and `contains` is false for every item.
`m_size` is a wrapping `size_t`: the no-overflow side conditions are local
to the one conjunct each protects — `size + 1 < 2^64` for the increment
and `0 < size < 2^64` for the decrement (at size 0 a successful erase
would wrap; that state is unreachable since size counts live slots). -/
theorem C5_size_accounting (f : CuckooFilter) (item other : Nat)
    (coin : Bool) (picks : List Nat)
    (h1 : 0 < f.m_fingerprint_size) (h2 : f.m_fingerprint_size ≤ 4) :
    ((insert f item coin picks).1 = true → f.m_size + 1 < 2 ^ 64 →
      (insert f item coin picks).2.m_size = f.m_size + 1)
    ∧ ((insert f item coin picks).1 = false →
      (insert f item coin picks).2.m_size = f.m_size)
    ∧ ((erase f item).1 = true → 0 < f.m_size → f.m_size < 2 ^ 64 →
      (erase f item).2.m_size = f.m_size - 1)
    ∧ ((erase f item).1 = false →
      (erase f item).2.m_size = f.m_size)
    ∧ (clear f).m_size = 0
    ∧ contains (clear f) other = false := by
  obtain ⟨hrec, hflag⟩ := insert_snd_eq f item coin picks
  obtain ⟨he1, he2⟩ := erase_cases f item
  refine ⟨?_, ?_, ?_, ?_, rfl, contains_clear f other h1 h2⟩
  · intro htrue hhi
    rw [hflag] at htrue
    rw [hrec]
    simp only [htrue, if_true]
    exact Nat.mod_eq_of_lt hhi
  · intro hfalse
    rw [hflag] at hfalse
    rw [hrec]
    simp [hfalse]
  · intro htrue hlo hhi
    rw [he1 htrue]
    have hsplit : f.m_size + (2 ^ 64 - 1) = (f.m_size - 1) + 2 ^ 64 := by
      omega
    rw [hsplit, Nat.add_mod_right]
    exact Nat.mod_eq_of_lt (by omega)
  · intro hfalse
    rw [he2 hfalse]

theorem C5_witness :
    (insert (CuckooFilter.mk 1 1 10 (fun x => x) (fun x => x) 4
      [0, 0, 0, 0] 0) (2 ^ 24) true []).2.m_size = 1
    ∧ (erase (CuckooFilter.mk 1 1 10 (fun x => x) (fun x => x) 4
      [9, 0, 0, 0] 1) (9 * 2 ^ 24)).2.m_size = 0
    ∧ (clear (CuckooFilter.mk 1 1 10 (fun x => x) (fun x => x) 4
      [0, 0, 0, 0] 0)).m_size = 0
    ∧ contains (clear (CuckooFilter.mk 1 1 10 (fun x => x) (fun x => x) 4
      [0, 0, 0, 0] 0)) 7 = false :=
  ⟨(C5_size_accounting (CuckooFilter.mk 1 1 10 (fun x => x) (fun x => x) 4
      [0, 0, 0, 0] 0) (2 ^ 24) 7 true [] (by decide) (by decide)).1
      (by decide) (by norm_num),
   (C5_size_accounting (CuckooFilter.mk 1 1 10 (fun x => x) (fun x => x) 4
      [9, 0, 0, 0] 1) (9 * 2 ^ 24) 7 true [] (by decide)
      (by decide)).2.2.1 (by decide) (by decide) (by norm_num),
   (C5_size_accounting (CuckooFilter.mk 1 1 10 (fun x => x) (fun x => x) 4
      [0, 0, 0, 0] 0) (2 ^ 24) 7 true [] (by decide)
      (by decide)).2.2.2.2.1,
   (C5_size_accounting (CuckooFilter.mk 1 1 10 (fun x => x) (fun x => x) 4
      [0, 0, 0, 0] 0) (2 ^ 24) 7 true [] (by decide)
      (by decide)).2.2.2.2.2⟩

/-! ### Trace-level machinery for the no-false-negative property -/

theorem relocate_length (f : CuckooFilter) :
    ∀ fuel data v b picks,
      (relocate f fuel data v b picks).data.length = data.length := by
  intro fuel
  induction fuel with
  | zero => intro data v b picks; rfl
  | succ n ih =>
    intro data v b picks
    rw [relocate]
    by_cases h : (bucket_insert data (get_bucket_begin f b)
        (get_bucket_range f) f.m_fingerprint_size v).1 = true
    · rw [if_pos h]
      exact bucket_insert_length data v _ _ _
    · rw [if_neg h]
      dsimp only
      rw [ih]
      exact write_bytes_length v data _

theorem insert_run_length (f : CuckooFilter) (item : Nat) (coin : Bool)
    (picks : List Nat) :
    (insert_run f item coin picks).data.length = f.m_data.length := by
  rw [insert_run]
  by_cases h : (bucket_insert f.m_data
      (get_bucket_begin f (if coin
        then (get_indexes_and_fingerprint_for f item).1
        else (get_indexes_and_fingerprint_for f item).2.1))
      (get_bucket_range f) f.m_fingerprint_size
      (get_indexes_and_fingerprint_for f item).2.2).1 = true
  · rw [if_pos h]
    exact bucket_insert_length f.m_data _ _ _ _
  · rw [if_neg h]
    exact relocate_length f _ _ _ _ _

theorem erase_shape (f : CuckooFilter) (item : Nat) :
    ∃ d s, (erase f item).2 = { f with m_data := d, m_size := s } := by
  rw [erase]
  by_cases h1 : (bucket_erase f.m_data
      (get_bucket_begin f (get_indexes_and_fingerprint_for f item).1)
      (get_bucket_range f) f.m_fingerprint_size
      (get_indexes_and_fingerprint_for f item).2.2).1 = true
  · rw [if_pos h1]
    exact ⟨_, _, rfl⟩
  · rw [if_neg h1]
    by_cases h2 : (bucket_erase f.m_data
        (get_bucket_begin f (get_indexes_and_fingerprint_for f item).2.1)
        (get_bucket_range f) f.m_fingerprint_size
        (get_indexes_and_fingerprint_for f item).2.2).1 = true
    · rw [if_pos h2]
      exact ⟨_, _, rfl⟩
    · rw [if_neg h2]
      exact ⟨f.m_data, f.m_size, rfl⟩

theorem erase_data_length (f : CuckooFilter) (item : Nat) :
    (erase f item).2.m_data.length = f.m_data.length := by
  rw [erase]
  by_cases h1 : (bucket_erase f.m_data
      (get_bucket_begin f (get_indexes_and_fingerprint_for f item).1)
      (get_bucket_range f) f.m_fingerprint_size
      (get_indexes_and_fingerprint_for f item).2.2).1 = true
  · rw [if_pos h1]
    exact bucket_erase_length f.m_data _ _ _ _
  · rw [if_neg h1]
    by_cases h2 : (bucket_erase f.m_data
        (get_bucket_begin f (get_indexes_and_fingerprint_for f item).2.1)
        (get_bucket_range f) f.m_fingerprint_size
        (get_indexes_and_fingerprint_for f item).2.2).1 = true
    · rw [if_pos h2]
      exact bucket_erase_length f.m_data _ _ _ _
    · rw [if_neg h2]

theorem apply_op_shape (f : CuckooFilter) (op : Op) :
    ∃ d s, apply_op f op = { f with m_data := d, m_size := s } := by
  cases op with
  | ins item coin picks => exact ⟨_, _, (insert_snd_eq f item coin picks).1⟩
  | del item => exact erase_shape f item

theorem apply_op_data_length (f : CuckooFilter) (op : Op) :
    (apply_op f op).m_data.length = f.m_data.length := by
  cases op with
  | ins item coin picks =>
    show (insert f item coin picks).2.m_data.length = _
    rw [(insert_snd_eq f item coin picks).1]
    exact insert_run_length f item coin picks
  | del item => exact erase_data_length f item

theorem wf_apply_op (f : CuckooFilter) (op : Op) (hwf : wf f) :
    wf (apply_op f op) := by
  obtain ⟨d, s, hshape⟩ := apply_op_shape f op
  have hd : d.length = f.m_data.length := by
    have h := apply_op_data_length f op
    rw [hshape] at h
    exact h
  rw [hshape]
  exact ⟨by show d.length = _; rw [hd]; exact hwf.1, hwf.2.1, hwf.2.2⟩

/-- The candidate pair of `t` is closed under taking alternate indices
with `t`'s fingerprint. -/
theorem pair_closure (f : CuckooFilter) (t b : Nat)
    (hb : b = index_of f t ∨ b = alt_of f t) :
    get_alt_index f b (fp_of f t) = index_of f t
    ∨ get_alt_index f b (fp_of f t) = alt_of f t := by
  rcases hb with h | h
  · right
    rw [h, ← alt_of_eq]
  · left
    rw [h]
    exact alt_of_alt f t

/-- If `x` has `t`'s fingerprint but its primary index is outside `t`'s
candidate pair, its alternate index is outside too. -/
theorem pair_disjoint (f : CuckooFilter) (t x : Nat)
    (hfp : fp_of f x = fp_of f t)
    (hnot : ¬ (index_of f x = index_of f t
      ∨ index_of f x = alt_of f t)) :
    ¬ (alt_of f x = index_of f t ∨ alt_of f x = alt_of f t) := by
  intro hcon
  apply hnot
  have hx : get_alt_index f (alt_of f x) (fp_of f x) = index_of f x :=
    alt_of_alt f x
  rcases hcon with h | h
  · right
    rw [← hx, h, hfp, ← alt_of_eq]
  · left
    rw [← hx, h, hfp]
    exact alt_of_alt f t

/-- A slot of an in-range bucket lies inside the well-formed buffer. -/
theorem slot_end_le (f : CuckooFilter) (b j : Nat)
    (hb : b < f.m_bucket_count) (hj : j < m_bucket_size) :
    get_bucket_begin f b + j * f.m_fingerprint_size + f.m_fingerprint_size
      ≤ f.m_bucket_count * (m_bucket_size * f.m_fingerprint_size) := by
  rw [get_bucket_begin]
  rw [m_bucket_size] at hj ⊢
  have h1 : b * 4 + j + 1 ≤ f.m_bucket_count * 4 := by omega
  have h2 : (b * 4 + j + 1) * f.m_fingerprint_size
      ≤ f.m_bucket_count * 4 * f.m_fingerprint_size :=
    Nat.mul_le_mul_right _ h1
  calc b * 4 * f.m_fingerprint_size + j * f.m_fingerprint_size
        + f.m_fingerprint_size
      = (b * 4 + j + 1) * f.m_fingerprint_size := by ring
    _ ≤ f.m_bucket_count * 4 * f.m_fingerprint_size := h2
    _ = f.m_bucket_count * (4 * f.m_fingerprint_size) := by ring

/-- `Bucket::insert` only ever writes into an all-zero slot, so it
preserves residency of any derived (hence nonzero) fingerprint. -/
theorem bucket_insert_preserves (f : CuckooFilter) (t : Nat)
    (data fp : List Nat) (b : Nat)
    (h1 : 0 < f.m_fingerprint_size) (h2 : f.m_fingerprint_size ≤ 4)
    (hfplen : fp.length = f.m_fingerprint_size)
    (hres : resident_in f data t) :
    resident_in f (bucket_insert data (get_bucket_begin f b)
      (get_bucket_range f) f.m_fingerprint_size fp).2 t := by
  rw [get_bucket_range]
  rcases hflag : (bucket_insert data (get_bucket_begin f b)
      (m_bucket_size * f.m_fingerprint_size) f.m_fingerprint_size fp).1
    with _ | _
  · rw [(bucket_insert_failure_spec data fp _ _ h1 hflag).1]
    exact hres
  · obtain ⟨j, hj, hempty, _, hwrite⟩ :=
      bucket_insert_success_spec data fp _ _ h1 hflag
    obtain ⟨c, hc, jc, hjc, hchunk⟩ := hres
    refine ⟨c, hc, jc, hjc, ?_⟩
    rw [hwrite, chunk_at_write_bytes_disjoint]
    · exact hchunk
    · rw [hfplen]
      have hne : ¬ (b = c ∧ j = jc) := by
        intro ⟨hb, hjjc⟩
        subst hb
        subst hjjc
        rw [hempty] at hchunk
        exact fp_of_ne_empty f t h1 h2 hchunk.symm
      have hd := slot_ranges_disjoint f.m_fingerprint_size b j c jc hj hjc hne
      rw [get_bucket_begin, get_bucket_begin]
      exact hd

/-- A successful `Bucket::insert` of `t`'s fingerprint into a bucket of
`t`'s candidate pair makes `t` resident. -/
theorem bucket_insert_places (f : CuckooFilter) (t : Nat)
    (data : List Nat) (b : Nat)
    (h1 : 0 < f.m_fingerprint_size)
    (hlen : data.length
      = f.m_bucket_count * (m_bucket_size * f.m_fingerprint_size))
    (hb : b < f.m_bucket_count)
    (hpair : b = index_of f t ∨ b = alt_of f t)
    (hflag : (bucket_insert data (get_bucket_begin f b)
      (get_bucket_range f) f.m_fingerprint_size (fp_of f t)).1 = true) :
    resident_in f (bucket_insert data (get_bucket_begin f b)
      (get_bucket_range f) f.m_fingerprint_size (fp_of f t)).2 t := by
  rw [get_bucket_range] at hflag ⊢
  obtain ⟨j, hj, hempty, _, hwrite⟩ :=
    bucket_insert_success_spec data _ _ _ h1 hflag
  refine ⟨b, hpair, j, hj, ?_⟩
  rw [hwrite]
  exact chunk_at_write_bytes_eq data _ _ _ (fp_of_length f t)
    (by rw [hlen]; exact slot_end_le f b j hb hj)

/-- Invariant of the relocation cascade: if `t`'s fingerprint is resident
in its candidate pair, or the in-hand fingerprint is `t`'s and its target
bucket is in `t`'s pair, then after the cascade either `t` is resident
again, or the cascade failed with `t`'s fingerprint in hand at a bucket of
its pair (the "displaced out" case). -/
theorem relocate_resident (f : CuckooFilter) (t : Nat)
    (hpow : ∃ k, f.m_bucket_count = 2 ^ k)
    (h1 : 0 < f.m_fingerprint_size) (h2 : f.m_fingerprint_size ≤ 4) :
    ∀ fuel data v b picks,
      data.length
        = f.m_bucket_count * (m_bucket_size * f.m_fingerprint_size) →
      v.length = f.m_fingerprint_size →
      b < f.m_bucket_count →
      (resident_in f data t
        ∨ (v = fp_of f t ∧ (b = index_of f t ∨ b = alt_of f t))) →
      ((relocate f fuel data v b picks).inserted = true →
        resident_in f (relocate f fuel data v b picks).data t)
      ∧ ((relocate f fuel data v b picks).inserted = false →
        resident_in f (relocate f fuel data v b picks).data t
        ∨ ((relocate f fuel data v b picks).in_hand = fp_of f t
          ∧ ((relocate f fuel data v b picks).at_index = index_of f t
            ∨ (relocate f fuel data v b picks).at_index = alt_of f t))) := by
  intro fuel
  induction fuel with
  | zero =>
    intro data v b picks hlen hvlen hb hinv
    constructor
    · intro hcon
      rw [relocate] at hcon
      simp at hcon
    · intro _
      rw [relocate]
      exact hinv
  | succ n ih =>
    intro data v b picks hlen hvlen hb hinv
    rw [relocate]
    by_cases hA : (bucket_insert data (get_bucket_begin f b)
        (get_bucket_range f) f.m_fingerprint_size v).1 = true
    · rw [if_pos hA]
      constructor
      · intro _
        show resident_in f (bucket_insert data (get_bucket_begin f b)
          (get_bucket_range f) f.m_fingerprint_size v).2 t
        rcases hinv with hres | ⟨hveq, hpair⟩
        · exact bucket_insert_preserves f t data v b h1 h2 hvlen hres
        · rw [hveq] at hA ⊢
          exact bucket_insert_places f t data b h1 hlen hb hpair hA
      · intro hcon
        simp at hcon
    · rw [if_neg hA]
      dsimp only
      set k := picks.headD 0 % m_bucket_size with hkdef
      set sw := bucket_swap data (get_bucket_begin f b)
        f.m_fingerprint_size k v with hswdef
      set b' := get_alt_index f b sw.1 with hbdef
      have hsw1 : sw.1 = chunk_at data
          (get_bucket_begin f b + k * f.m_fingerprint_size)
          f.m_fingerprint_size := rfl
      have hsw2 : sw.2 = write_bytes data
          (get_bucket_begin f b + k * f.m_fingerprint_size) v := rfl
      have hklt : k < m_bucket_size := by
        rw [hkdef]
        exact Nat.mod_lt _ (by rw [m_bucket_size]; norm_num)
      have hswlen : sw.2.length = data.length :=
        bucket_swap_length data v _ _ _
      have hsw1len : sw.1.length = f.m_fingerprint_size :=
        bucket_swap_chunk_length data v _ _ _
      have hb'lt : b' < f.m_bucket_count := get_alt_index_lt f hpow b sw.1 hb
      have hinv' : resident_in f sw.2 t
          ∨ (sw.1 = fp_of f t
            ∧ (b' = index_of f t ∨ b' = alt_of f t)) := by
        rcases hinv with hres | ⟨hveq, hpair⟩
        · obtain ⟨c, hc, jc, hjc, hchunk⟩ := hres
          by_cases hsame : b = c ∧ k = jc
          · obtain ⟨hbc, hkj⟩ := hsame
            have hswfp : sw.1 = fp_of f t := by
              rw [hsw1, hbc, hkj]
              exact hchunk
            right
            refine ⟨hswfp, ?_⟩
            rw [hbdef, hswfp]
            apply pair_closure f t b
            rw [hbc]
            exact hc
          · left
            refine ⟨c, hc, jc, hjc, ?_⟩
            rw [hsw2, chunk_at_write_bytes_disjoint]
            · exact hchunk
            · rw [hvlen]
              have hd := slot_ranges_disjoint f.m_fingerprint_size b k c jc
                hklt hjc hsame
              rw [get_bucket_begin, get_bucket_begin]
              exact hd
        · left
          refine ⟨b, hpair, k, hklt, ?_⟩
          rw [hsw2, chunk_at_write_bytes_eq data v _ _ hvlen
            (by rw [hlen]; exact slot_end_le f b k hb hklt), hveq]
      have hrec := ih sw.2 sw.1 b' picks.tail
        (by rw [hswlen, hlen]) hsw1len hb'lt hinv'
      exact hrec

/-- The full insertion attempt preserves residency of any tracked item
(up to the displaced-out case) and establishes it for the inserted item
itself. -/
theorem insert_run_resident (f : CuckooFilter) (item t : Nat) (coin : Bool)
    (picks : List Nat) (hwf : wf f) :
    (resident_in f f.m_data t →
      ((insert_run f item coin picks).inserted = true →
        resident_in f (insert_run f item coin picks).data t)
      ∧ ((insert_run f item coin picks).inserted = false →
        resident_in f (insert_run f item coin picks).data t
        ∨ ((insert_run f item coin picks).in_hand = fp_of f t
          ∧ ((insert_run f item coin picks).at_index = index_of f t
            ∨ (insert_run f item coin picks).at_index = alt_of f t))))
    ∧ (item = t →
        (insert_run f item coin picks).inserted = true →
        resident_in f (insert_run f item coin picks).data t) := by
  obtain ⟨hlen, hpow, h1, h2⟩ := hwf
  have hbc : 0 < f.m_bucket_count := by
    obtain ⟨k, hk⟩ := hpow
    rw [hk]
    positivity
  rw [insert_run, indexes_tuple_eq]
  dsimp only
  have hi0lt : (if coin then index_of f item else alt_of f item)
      < f.m_bucket_count := by
    by_cases hc : coin
    · rw [if_pos hc]
      exact index_of_lt f item hbc
    · rw [if_neg hc]
      exact alt_of_lt f item hpow
  by_cases hD : (bucket_insert f.m_data
      (get_bucket_begin f (if coin then index_of f item
        else alt_of f item))
      (get_bucket_range f) f.m_fingerprint_size (fp_of f item)).1 = true
  · rw [if_pos hD]
    constructor
    · intro hres
      refine ⟨fun _ => ?_, fun hcon => by simp at hcon⟩
      exact bucket_insert_preserves f t f.m_data (fp_of f item) _ h1 h2
        (fp_of_length f item) hres
    · intro hit _
      subst hit
      apply bucket_insert_places f item f.m_data _ h1 hlen hi0lt ?_ hD
      by_cases hc : coin
      · rw [if_pos hc]
        exact Or.inl rfl
      · rw [if_neg hc]
        exact Or.inr rfl
  · rw [if_neg hD]
    have hblt : get_alt_index f
        (if coin then index_of f item else alt_of f item)
        (fp_of f item) < f.m_bucket_count :=
      get_alt_index_lt f hpow _ _ hi0lt
    constructor
    · intro hres
      exact relocate_resident f t hpow h1 h2 f.m_max_relocations f.m_data
        (fp_of f item) _ picks hlen (fp_of_length f item) hblt
        (Or.inl hres)
    · intro hit _
      subst hit
      have hpair : get_alt_index f
          (if coin then index_of f item else alt_of f item)
          (fp_of f item) = index_of f item
          ∨ get_alt_index f
            (if coin then index_of f item else alt_of f item)
            (fp_of f item) = alt_of f item := by
        apply pair_closure f item
        by_cases hc : coin
        · rw [if_pos hc]
          exact Or.inl rfl
        · rw [if_neg hc]
          exact Or.inr rfl
      exact (relocate_resident f item hpow h1 h2 f.m_max_relocations
        f.m_data (fp_of f item) _ picks hlen (fp_of_length f item) hblt
        (Or.inr ⟨rfl, hpair⟩)).1 (by assumption)

/-- `Bucket::erase` on a bucket outside `t`'s pair, or with a fingerprint
different from `t`'s, preserves residency of `t`. -/
theorem bucket_erase_preserves (f : CuckooFilter) (t : Nat)
    (data fpx : List Nat) (e : Nat)
    (h1 : 0 < f.m_fingerprint_size)
    (hsafe : fpx ≠ fp_of f t ∨ ¬ (e = index_of f t ∨ e = alt_of f t))
    (hres : resident_in f data t) :
    resident_in f (bucket_erase data (get_bucket_begin f e)
      (get_bucket_range f) f.m_fingerprint_size fpx).2 t := by
  rw [get_bucket_range]
  rcases hflag : (bucket_erase data (get_bucket_begin f e)
      (m_bucket_size * f.m_fingerprint_size) f.m_fingerprint_size fpx).1
    with _ | _
  · rw [(bucket_erase_failure_spec data fpx _ _ h1 hflag).1]
    exact hres
  · obtain ⟨j, hj, hchunkx, hwrite⟩ :=
      bucket_erase_success_spec data fpx _ _ h1 hflag
    obtain ⟨c, hc, jc, hjc, hchunk⟩ := hres
    refine ⟨c, hc, jc, hjc, ?_⟩
    rw [hwrite, chunk_at_write_bytes_disjoint]
    · exact hchunk
    · have hlenc : (empty_fingerprint f.m_fingerprint_size).length
          = f.m_fingerprint_size := by
        simp [empty_fingerprint]
      rw [hlenc]
      have hne : ¬ (e = c ∧ j = jc) := by
        intro ⟨hec, hjjc⟩
        rcases hsafe with hfp | hout
        · rw [hec, hjjc] at hchunkx
          rw [hchunkx] at hchunk
          exact hfp hchunk
        · apply hout
          rw [hec]
          exact hc
      have hd := slot_ranges_disjoint f.m_fingerprint_size e j c jc hj hjc hne
      rw [get_bucket_begin, get_bucket_begin]
      exact hd

/-- `CuckooFilter::erase` preserves residency of `t` unless it actually
removed `t`'s fingerprint value from `t`'s candidate pair. -/
theorem erase_resident (f : CuckooFilter) (x t : Nat) (hwf : wf f)
    (hres : resident_in f f.m_data t)
    (hkeep : ¬ ((erase f x).1 = true ∧ fp_of f x = fp_of f t
      ∧ (index_of f x = index_of f t ∨ index_of f x = alt_of f t))) :
    resident_in f (erase f x).2.m_data t := by
  obtain ⟨hlen, hpow, h1, h2⟩ := hwf
  by_cases hE1 : (bucket_erase f.m_data
      (get_bucket_begin f (index_of f x)) (get_bucket_range f)
      f.m_fingerprint_size (fp_of f x)).1 = true
  · have herased : (erase f x).1 = true := by
      rw [erase, indexes_tuple_eq]
      dsimp only
      rw [if_pos hE1]
    have hdata : (erase f x).2.m_data = (bucket_erase f.m_data
        (get_bucket_begin f (index_of f x)) (get_bucket_range f)
        f.m_fingerprint_size (fp_of f x)).2 := by
      rw [erase, indexes_tuple_eq]
      dsimp only
      rw [if_pos hE1]
    rw [hdata]
    apply bucket_erase_preserves f t f.m_data (fp_of f x) _ h1 ?_ hres
    by_cases hfp : fp_of f x = fp_of f t
    · right
      intro hcon
      exact hkeep ⟨herased, hfp, hcon⟩
    · left
      exact hfp
  · by_cases hE2 : (bucket_erase f.m_data
        (get_bucket_begin f (alt_of f x)) (get_bucket_range f)
        f.m_fingerprint_size (fp_of f x)).1 = true
    · have herased : (erase f x).1 = true := by
        rw [erase, indexes_tuple_eq]
        dsimp only
        rw [if_neg hE1, if_pos hE2]
      have hdata : (erase f x).2.m_data = (bucket_erase f.m_data
          (get_bucket_begin f (alt_of f x)) (get_bucket_range f)
          f.m_fingerprint_size (fp_of f x)).2 := by
        rw [erase, indexes_tuple_eq]
        dsimp only
        rw [if_neg hE1, if_pos hE2]
      rw [hdata]
      apply bucket_erase_preserves f t f.m_data (fp_of f x) _ h1 ?_ hres
      by_cases hfp : fp_of f x = fp_of f t
      · right
        apply pair_disjoint f t x hfp
        intro hcon
        exact hkeep ⟨herased, hfp, hcon⟩
      · left
        exact hfp
    · have hdata : (erase f x).2.m_data = f.m_data := by
        rw [erase, indexes_tuple_eq]
        dsimp only
        rw [if_neg hE1, if_neg hE2]
      rw [hdata]
      exact hres

/-- Residency in the candidate pair implies `contains` finds the
fingerprint (the over-scanned view is a superset of the real slots). -/
theorem contains_of_resident (f : CuckooFilter) (t : Nat)
    (h1 : 0 < f.m_fingerprint_size)
    (hres : resident_in f f.m_data t) :
    contains f t = true := by
  rw [contains, indexes_tuple_eq]
  dsimp only
  obtain ⟨c, hc, jc, hjc, hchunk⟩ := hres
  rcases hc with h | h
  · rw [h] at hchunk
    have hb := bucket_contains_of_slot f.m_data (fp_of f t)
      (get_bucket_begin f (index_of f t)) f.m_fingerprint_size jc h1 hjc
      hchunk
    rw [get_bucket_range, hb]
    rfl
  · rw [h] at hchunk
    have hb := bucket_contains_of_slot f.m_data (fp_of f t)
      (get_bucket_begin f (alt_of f t)) f.m_fingerprint_size jc h1 hjc
      hchunk
    rw [get_bucket_range, hb]
    simp

/-- One trace step: if tracking holds afterwards, the tracked item's
fingerprint is resident in the updated buffer. -/
theorem track_step_sound (f : CuckooFilter) (t : Nat) (tr : Bool) (op : Op)
    (hwf : wf f) (hres : tr = true → resident_in f f.m_data t)
    (htr : track_step f t tr op = true) :
    resident_in f (apply_op f op).m_data t := by
  cases op with
  | ins x coin picks =>
    have hdata : (apply_op f (Op.ins x coin picks)).m_data
        = (insert_run f x coin picks).data := by
      show (insert f x coin picks).2.m_data = _
      rw [(insert_snd_eq f x coin picks).1]
    rw [hdata]
    rw [track_step] at htr
    by_cases hcase : (decide (x = t)
        && (insert_run f x coin picks).inserted) = true
    · simp only [Bool.and_eq_true, decide_eq_true_eq] at hcase
      exact (insert_run_resident f x t coin picks hwf).2 hcase.1 hcase.2
    · rw [if_neg hcase] at htr
      simp only [Bool.and_eq_true, Bool.not_eq_true'] at htr
      obtain ⟨htr1, hev⟩ := htr
      have hrun := (insert_run_resident f x t coin picks hwf).1 (hres htr1)
      rcases hflag : (insert_run f x coin picks).inserted with _ | _
      · rcases hrun.2 hflag with hok | ⟨hin, hat⟩
        · exact hok
        · exfalso
          rcases hat with hat | hat <;> simp [hflag, hin, hat] at hev
      · exact hrun.1 hflag
  | del x =>
    show resident_in f (erase f x).2.m_data t
    rw [track_step] at htr
    simp only [Bool.and_eq_true, Bool.not_eq_true'] at htr
    obtain ⟨htr1, hev⟩ := htr
    apply erase_resident f x t hwf (hres htr1)
    intro ⟨hok, hfp, hidx⟩
    rcases hidx with h | h <;> simp [hok, hfp, h] at hev

/-- Trace induction: along any insert/erase trace, whenever the tracking
flag is still set, the tracked item's fingerprint is resident (and the
filter stays well-formed). -/
theorem run_track_sound (t : Nat) :
    ∀ ops : List Op, ∀ f : CuckooFilter, ∀ tr : Bool,
      wf f → (tr = true → resident_in f f.m_data t) →
      wf (run_track t f tr ops).1
      ∧ ((run_track t f tr ops).2 = true →
        resident_in (run_track t f tr ops).1
          (run_track t f tr ops).1.m_data t) := by
  intro ops
  induction ops with
  | nil =>
    intro f tr hwf hres
    exact ⟨hwf, hres⟩
  | cons op rest ih =>
    intro f tr hwf hres
    rw [run_track]
    apply ih (apply_op f op) (track_step f t tr op) (wf_apply_op f op hwf)
    intro htr
    have hstep := track_step_sound f t tr op hwf hres htr
    obtain ⟨d, s, hshape⟩ := apply_op_shape f op
    rw [hshape] at hstep ⊢
    exact hstep

/-- C2 counterexample (to the claim as stated): with an injected constant
strong hash, items 1 and 2 derive the identical (index, alt_index,
fingerprint) triple.  Insert 1 (returns true), then erase 2 (returns
true): item 1 was never erased itself and no relocation cascade ever ran
(no insert failed), yet `contains 1` is now false. -/
theorem C2_counterexample :
    (1 : Nat) ≠ 2
    ∧ (insert (CuckooFilter.mk 1 1 10 (fun _ => 0) (fun x => x) 4
        [0, 0, 0, 0] 0) 1 true []).1 = true
    ∧ (erase (insert (CuckooFilter.mk 1 1 10 (fun _ => 0) (fun x => x) 4
        [0, 0, 0, 0] 0) 1 true []).2 2).1 = true
    ∧ contains (erase (insert (CuckooFilter.mk 1 1 10 (fun _ => 0)
        (fun x => x) 4 [0, 0, 0, 0] 0) 1 true []).2 2).2 1 = false := by
  decide

/-- C2 (amended): over any trace of insert/erase operations on a
well-formed filter (buffer covering all buckets, power-of-two bucket
count, fingerprint_size in 1..4), any item whose insert returned true and
whose fingerprint was not subsequently removed from its two candidate
buckets by a successful erase (of it or of an item aliasing its
fingerprint and pair) and was not displaced out by a later failed
relocation cascade (tracked by `run_track`) satisfies `contains item =
true`. -/
theorem C2_no_false_negatives (f : CuckooFilter) (ops : List Op) (t : Nat)
    (hwf : wf f) (htr : (run_track t f false ops).2 = true) :
    contains (run_track t f false ops).1 t = true := by
  have h := run_track_sound t ops f false hwf (fun hcon => by simp at hcon)
  exact contains_of_resident _ t h.1.2.2.1 (h.2 htr)

theorem C2_witness :
    (run_track (2 ^ 24) (CuckooFilter.mk 1 1 10 (fun x => x) (fun x => x)
      4 [0, 0, 0, 0] 0) false [Op.ins (2 ^ 24) true []]).2 = true
    ∧ contains (run_track (2 ^ 24) (CuckooFilter.mk 1 1 10 (fun x => x)
      (fun x => x) 4 [0, 0, 0, 0] 0) false [Op.ins (2 ^ 24) true []]).1
      (2 ^ 24) = true :=
  ⟨by decide,
    C2_no_false_negatives (CuckooFilter.mk 1 1 10 (fun x => x)
      (fun x => x) 4 [0, 0, 0, 0] 0) [Op.ins (2 ^ 24) true []] (2 ^ 24)
      ⟨by decide, ⟨0, rfl⟩, by decide, by decide⟩ (by decide)⟩

end cuculiform
